import Mathlib

/-!
Verification of the internal-service authentication subsystem of the
telemetry service: the internal-JWT verifier (`src/infra/security/internal-jwt`)
and the service-auth middleware (`src/middleware/internal-service-auth.middleware`).

The TypeScript code is shallowly embedded as executable Lean functions.
Modelling conventions:
* JavaScript strings are Lean `String`s; Node `Buffer`s are `List Nat`
  (byte values).
* Node's HMAC-SHA256 primitive (`node:crypto`) is an external library, so it
  is abstracted as an explicit function parameter `hmac : HmacFn`
  (key → message → digest bytes).  Facts that the real primitive provides
  (32-byte digests, collision resistance) appear as explicit hypotheses.
* JSON numbers are modelled as integers (`Int`): every claim-relevant number
  is an epoch-seconds timestamp; IEEE-754 float behaviour is out of scope.
* `JSON.parse` / `JSON.stringify` are modelled by an executable parser and
  by encoders for the concrete object shapes the code serialises.
-/

namespace InternalAuth

/-- JSON values as produced by `JSON.parse`.  Numbers are abstracted to `Int`
(all numbers relevant to the verifier are epoch-second timestamps). -/
inductive Json where
  | null
  | bool (b : Bool)
  | num (n : Int)
  | str (s : String)
  | arr (elems : List Json)
  | obj (fields : List (String × Json))

/-- JavaScript property access `j[k]` on a parsed JSON value: `some v` when
`j` is an object with field `k` (last occurrence wins, as in `JSON.parse`),
`none` (i.e. `undefined`) otherwise. -/
def Json.getField (j : Json) (k : String) : Option Json :=
  match j with
  | .obj fields => fields.foldl (fun acc p => if p.1 = k then some p.2 else acc) none
  | _ => none

/-- JavaScript falsiness of a parsed JSON value (`!v` in the source guards
`if (!header)` / `if (!payload)`): `null`, `false`, `0` and `""` are falsy. -/
def Json.jsFalsy : Json → Bool
  | .null => true
  | .bool b => !b
  | .num n => n == 0
  | .str s => s == ""
  | _ => false

/-! ## Base64 (standard alphabet) and the base64url wrappers from the source -/

/-- The standard base64 alphabet: sextet value → character. -/
def b64Char (n : Nat) : Char :=
  if n < 26 then Char.ofNat (65 + n)
  else if n < 52 then Char.ofNat (97 + (n - 26))
  else if n < 62 then Char.ofNat (48 + (n - 52))
  else if n = 62 then '+'
  else '/'

/-- Inverse of the base64 alphabet; `none` for characters outside it
(Node's base64 decoder skips such characters). -/
def b64Sextet (c : Char) : Option Nat :=
  if 65 ≤ c.toNat ∧ c.toNat ≤ 90 then some (c.toNat - 65)
  else if 97 ≤ c.toNat ∧ c.toNat ≤ 122 then some (c.toNat - 97 + 26)
  else if 48 ≤ c.toNat ∧ c.toNat ≤ 57 then some (c.toNat - 48 + 52)
  else if c = '+' then some 62
  else if c = '/' then some 63
  else none

/-- Base64-encode a byte list (3 bytes → 4 chars, truncated final group,
no padding — the source strips `=` padding). -/
def b64EncodeBytes : List Nat → List Char
  | [] => []
  | [b0] => [b64Char (b0 / 4), b64Char (b0 % 4 * 16)]
  | [b0, b1] => [b64Char (b0 / 4), b64Char (b0 % 4 * 16 + b1 / 16), b64Char (b1 % 16 * 4)]
  | b0 :: b1 :: b2 :: rest =>
      b64Char (b0 / 4) :: b64Char (b0 % 4 * 16 + b1 / 16) ::
      b64Char (b1 % 16 * 4 + b2 / 64) :: b64Char (b2 % 64) :: b64EncodeBytes rest

/-- Reassemble bytes from base64 sextets (4 sextets → 3 bytes; a final group
of 2 or 3 sextets yields 1 or 2 bytes; a lone sextet yields nothing),
matching Node's lenient base64 decoding. -/
def sextetsToBytes : List Nat → List Nat
  | s0 :: s1 :: s2 :: s3 :: rest =>
      (s0 * 4 + s1 / 16) :: (s1 % 16 * 16 + s2 / 4) :: (s2 % 4 * 64 + s3) :: sextetsToBytes rest
  | [s0, s1] => [s0 * 4 + s1 / 16]
  | [s0, s1, s2] => [s0 * 4 + s1 / 16, s1 % 16 * 16 + s2 / 4]
  | _ => []

/-- The `+`→`-`, `/`→`_` substitution of `base64UrlEncode`. -/
def urlMapChar (c : Char) : Char :=
  if c = '+' then '-' else if c = '/' then '_' else c

/-- The `-`→`+`, `_`→`/` substitution of `base64UrlDecode`. -/
def urlUnmapChar (c : Char) : Char :=
  if c = '-' then '+' else if c = '_' then '/' else c

/-- `base64UrlEncode` from the source: standard base64 of the bytes with
`+`→`-`, `/`→`_` and padding stripped. -/
def base64UrlEncode (bs : List Nat) : String :=
  String.mk ((b64EncodeBytes bs).map urlMapChar)

/-- `base64UrlDecode` from the source: `-`→`+`, `_`→`/`, pad, then
`Buffer.from(·, "base64")` (Node ignores characters outside the alphabet,
including the `=` padding just added, and drops a lone trailing sextet). -/
def base64UrlDecode (s : String) : List Nat :=
  sextetsToBytes (s.data.filterMap (fun c => b64Sextet (urlUnmapChar c)))

/-! ## UTF-8 (Node `Buffer.from(string)` / `buffer.toString("utf8")`) -/

/-- UTF-8 encoding of one Unicode scalar value. -/
def utf8EncodeChar (c : Char) : List Nat :=
  let n := c.toNat
  if n < 128 then [n]
  else if n < 2048 then [192 + n / 64, 128 + n % 64]
  else if n < 65536 then [224 + n / 4096, 128 + n / 64 % 64, 128 + n % 64]
  else [240 + n / 262144, 128 + n / 4096 % 64, 128 + n / 64 % 64, 128 + n % 64]

/-- UTF-8 encoding of a string (Node `Buffer.from(s)`). -/
def utf8Encode (s : String) : List Nat :=
  (s.data.map utf8EncodeChar).flatten

/-- Is `b` a UTF-8 continuation byte? -/
def isCont (b : Nat) : Bool := 128 ≤ b ∧ b < 192

/-- The replacement character U+FFFD used by Node for invalid UTF-8. -/
def replChar : Char := Char.ofNat 65533

/-- One step of UTF-8 decoding: given a lead byte and the remaining bytes,
the decoded character (U+FFFD replacement on invalid sequences — overlong
encodings, surrogate code points, out-of-range values, truncated or missing
continuations) and the bytes still to decode. -/
def utf8DecodeStep (b : Nat) (bs : List Nat) : Char × List Nat :=
  if b < 128 then (Char.ofNat b, bs)
  else if 192 ≤ b ∧ b < 224 then
    match bs with
    | b1 :: bs1 =>
      if isCont b1 then
        let v := (b - 192) * 64 + (b1 - 128)
        ((if 128 ≤ v then Char.ofNat v else replChar), bs1)
      else (replChar, b1 :: bs1)
    | [] => (replChar, [])
  else if 224 ≤ b ∧ b < 240 then
    match bs with
    | b1 :: b2 :: bs2 =>
      if isCont b1 ∧ isCont b2 then
        let v := (b - 224) * 4096 + (b1 - 128) * 64 + (b2 - 128)
        ((if 2048 ≤ v ∧ ¬ (55296 ≤ v ∧ v < 57344) then Char.ofNat v else replChar), bs2)
      else (replChar, b1 :: b2 :: bs2)
    | [b1] => (replChar, [b1])
    | [] => (replChar, [])
  else if 240 ≤ b ∧ b < 248 then
    match bs with
    | b1 :: b2 :: b3 :: bs3 =>
      if isCont b1 ∧ isCont b2 ∧ isCont b3 then
        let v := (b - 240) * 262144 + (b1 - 128) * 4096 + (b2 - 128) * 64 + (b3 - 128)
        ((if 65536 ≤ v ∧ v < 1114112 then Char.ofNat v else replChar), bs3)
      else (replChar, b1 :: b2 :: b3 :: bs3)
    | [b1, b2] => (replChar, [b1, b2])
    | [b1] => (replChar, [b1])
    | [] => (replChar, [])
  else (replChar, bs)

/-- Fuel-indexed driver of UTF-8 decoding.  The fuel only bounds the number
of decoded characters; each character consumes at least one byte, so the
fuel `utf8Decode` supplies below never runs out before the input does. -/
def utf8Go : Nat → List Nat → List Char
  | 0, _ => []
  | _ + 1, [] => []
  | fuel + 1, b :: bs => (utf8DecodeStep b bs).1 :: utf8Go fuel (utf8DecodeStep b bs).2

/-- UTF-8 decoding with U+FFFD replacement on invalid sequences
(Node `buffer.toString("utf8")`). -/
def utf8Decode (bs : List Nat) : List Char := utf8Go bs.length bs

/-! ## A model of `JSON.parse` / `JSON.stringify`

Abstractions (see module header): numbers are integer-only (the fraction /
exponent part of the JSON number grammar is rejected rather than parsed to a
float), and `\uXXXX` escapes denoting lone UTF-16 surrogates decode to U+FFFD
because Lean strings hold Unicode scalar values. -/

/-- The character `{` (spelled via its code point). -/
def lbrace : Char := Char.ofNat 123

/-- The character `}` (spelled via its code point). -/
def rbrace : Char := Char.ofNat 125

/-- JSON insignificant whitespace: space, tab, line feed, carriage return. -/
def skipWs : List Char → List Char
  | c :: cs =>
    if c = ' ' ∨ c.toNat = 9 ∨ c.toNat = 10 ∨ c.toNat = 13 then skipWs cs else c :: cs
  | [] => []

/-- Hexadecimal digit value of a character. -/
def hexVal (c : Char) : Option Nat :=
  if 48 ≤ c.toNat ∧ c.toNat ≤ 57 then some (c.toNat - 48)
  else if 97 ≤ c.toNat ∧ c.toNat ≤ 102 then some (c.toNat - 97 + 10)
  else if 65 ≤ c.toNat ∧ c.toNat ≤ 70 then some (c.toNat - 65 + 10)
  else none

/-- The value of four hexadecimal digit characters. -/
def hexQuad (h1 h2 h3 h4 : Char) : Option Nat :=
  match hexVal h1, hexVal h2, hexVal h3, hexVal h4 with
  | some v1, some v2, some v3, some v4 => some (((v1 * 16 + v2) * 16 + v3) * 16 + v4)
  | _, _, _, _ => none

/-- The decoded character of a `\X` or `\uXXXX` escape of value `v`.  A value
in the UTF-16 surrogate range decodes to U+FFFD (Lean strings hold Unicode
scalar values, so JS lone/paired surrogates are abstracted). -/
def escCharOf (v : Nat) : Char :=
  if 55296 ≤ v ∧ v < 57344 then replChar else Char.ofNat v

/-- Fuel-indexed body of a JSON string literal after the opening quote:
returns the decoded characters and the remaining input after the closing
quote.  Handles the JSON escapes; raw control characters are rejected as in
`JSON.parse`.  The fuel bounds the number of decoded characters; each
consumes at least one input character, so the fuel `parseStringBody`
supplies never runs out before the input does. -/
def parseStringGo : Nat → List Char → Option (List Char × List Char)
  | 0, _ => none
  | _ + 1, [] => none
  | fuel + 1, c :: cs =>
    if c = '"' then some ([], cs)
    else if c = '\\' then
      (match cs with
       | [] => none
       | e :: cs1 =>
         if e = '"' ∨ e = '\\' ∨ e = '/' then
           (parseStringGo fuel cs1).map (fun p => (e :: p.1, p.2))
         else if e = 'b' then (parseStringGo fuel cs1).map (fun p => (Char.ofNat 8 :: p.1, p.2))
         else if e = 't' then (parseStringGo fuel cs1).map (fun p => (Char.ofNat 9 :: p.1, p.2))
         else if e = 'n' then (parseStringGo fuel cs1).map (fun p => (Char.ofNat 10 :: p.1, p.2))
         else if e = 'f' then (parseStringGo fuel cs1).map (fun p => (Char.ofNat 12 :: p.1, p.2))
         else if e = 'r' then (parseStringGo fuel cs1).map (fun p => (Char.ofNat 13 :: p.1, p.2))
         else if e = 'u' then
           (match cs1 with
            | h1 :: h2 :: h3 :: h4 :: cs2 =>
              (match hexQuad h1 h2 h3 h4 with
               | some v => (parseStringGo fuel cs2).map (fun p => (escCharOf v :: p.1, p.2))
               | none => none)
            | [_, _, _] => none
            | [_, _] => none
            | [_] => none
            | [] => none)
         else none)
    else if c.toNat < 32 then none
    else (parseStringGo fuel cs).map (fun p => (c :: p.1, p.2))

/-- Body of a JSON string literal after the opening quote. -/
def parseStringBody (cs : List Char) : Option (List Char × List Char) :=
  parseStringGo (cs.length + 1) cs

/-- Is `c` a decimal digit? -/
def isDigitChar (c : Char) : Bool := 48 ≤ c.toNat ∧ c.toNat ≤ 57

/-- Numeric value of a list of decimal digit characters. -/
def digitsVal (ds : List Char) : Nat :=
  ds.foldl (fun a c => a * 10 + (c.toNat - 48)) 0

/-- Parse a JSON natural-number literal (digits with the no-leading-zero
rule), returning its value and the rest of the input. -/
def parseNatToken (cs : List Char) : Option (Nat × List Char) :=
  match cs.takeWhile isDigitChar with
  | [] => none
  | d :: ds =>
    if d = '0' ∧ ds ≠ [] then none
    else some (digitsVal (d :: ds), cs.dropWhile isDigitChar)

/-- Parse a JSON integer literal with optional leading minus sign. -/
def parseNumToken (cs : List Char) : Option (Int × List Char) :=
  match cs with
  | c :: cs1 =>
    if c = '-' then (parseNatToken cs1).map (fun p => (-(p.1 : Int), p.2))
    else (parseNatToken cs).map (fun p => ((p.1 : Int), p.2))
  | [] => none

mutual

/-- Fuel-indexed JSON value grammar (model of `JSON.parse`). -/
def parseValue : Nat → List Char → Option (Json × List Char)
  | 0, _ => none
  | fuel + 1, cs =>
    match skipWs cs with
    | [] => none
    | c :: cs1 =>
      if c = 'n' then
        (match cs1 with
         | 'u' :: 'l' :: 'l' :: rest => some (.null, rest)
         | _ => none)
      else if c = 't' then
        (match cs1 with
         | 'r' :: 'u' :: 'e' :: rest => some (.bool true, rest)
         | _ => none)
      else if c = 'f' then
        (match cs1 with
         | 'a' :: 'l' :: 's' :: 'e' :: rest => some (.bool false, rest)
         | _ => none)
      else if c = '"' then
        (parseStringBody cs1).map (fun p => (.str (String.mk p.1), p.2))
      else if c = '[' then
        (match skipWs cs1 with
         | c2 :: rest => if c2 = ']' then some (.arr [], rest)
                         else (parseArrayItems fuel (c2 :: rest)).map (fun p => (.arr p.1, p.2))
         | [] => none)
      else if c = lbrace then
        (match skipWs cs1 with
         | c2 :: rest => if c2 = rbrace then some (.obj [], rest)
                         else (parseObjectItems fuel (c2 :: rest)).map (fun p => (.obj p.1, p.2))
         | [] => none)
      else if c = '-' ∨ isDigitChar c then
        (parseNumToken (c :: cs1)).map (fun p => (.num p.1, p.2))
      else none

/-- Comma-separated JSON values up to the closing `]`. -/
def parseArrayItems : Nat → List Char → Option (List Json × List Char)
  | 0, _ => none
  | fuel + 1, cs =>
    match parseValue fuel cs with
    | some (v, rest) =>
      match skipWs rest with
      | c :: rest1 =>
        if c = ',' then (parseArrayItems fuel rest1).map (fun p => (v :: p.1, p.2))
        else if c = ']' then some ([v], rest1)
        else none
      | [] => none
    | none => none

/-- Comma-separated `"key": value` pairs up to the closing brace. -/
def parseObjectItems : Nat → List Char → Option (List (String × Json) × List Char)
  | 0, _ => none
  | fuel + 1, cs =>
    match skipWs cs with
    | c :: cs1 =>
      if c = '"' then
        (match parseStringBody cs1 with
         | some (key, rest) =>
           (match skipWs rest with
            | c2 :: rest1 =>
              if c2 = ':' then
                (match parseValue fuel rest1 with
                 | some (v, rest2) =>
                   (match skipWs rest2 with
                    | c3 :: rest3 =>
                      if c3 = ',' then
                        (parseObjectItems fuel rest3).map
                          (fun p => ((String.mk key, v) :: p.1, p.2))
                      else if c3 = rbrace then some ([(String.mk key, v)], rest3)
                      else none
                    | [] => none)
                 | none => none)
              else none
            | [] => none)
         | none => none)
      else none
    | [] => none

end

/-- `JSON.parse` on a string: parse one value and require the remaining input
to be whitespace only; any failure is an exception in JS, `none` here. -/
def jsonParse (s : String) : Option Json :=
  match parseValue (s.data.length + 1) s.data with
  | some (v, rest) => if skipWs rest = [] then some v else none
  | none => none

/-! ## `JSON.stringify` for the object shapes the code serialises -/

/-- Lower-case hexadecimal digit character. -/
def hexDigitChar (n : Nat) : Char :=
  if n < 10 then Char.ofNat (48 + n) else Char.ofNat (97 + n - 10)

/-- `JSON.stringify` escaping of one character of a string value. -/
def escapeJsonChar (c : Char) : List Char :=
  if c = '"' then ['\\', '"']
  else if c = '\\' then ['\\', '\\']
  else if c.toNat = 8 then ['\\', 'b']
  else if c.toNat = 9 then ['\\', 't']
  else if c.toNat = 10 then ['\\', 'n']
  else if c.toNat = 12 then ['\\', 'f']
  else if c.toNat = 13 then ['\\', 'r']
  else if c.toNat < 32 then ['\\', 'u', '0', '0', hexDigitChar (c.toNat / 16), hexDigitChar (c.toNat % 16)]
  else [c]

/-- `JSON.stringify` of a string value (quoted, escaped). -/
def jsonQuote (s : String) : List Char :=
  '"' :: (s.data.map escapeJsonChar).flatten ++ ['"']

/-- Fuel-indexed decimal digit characters of a natural number; the fuel
bounds the number of digits, so `natDigits` below always supplies enough. -/
def natDigitsGo : Nat → Nat → List Char
  | 0, _ => []
  | fuel + 1, n =>
    if n < 10 then [Char.ofNat (48 + n)]
    else natDigitsGo fuel (n / 10) ++ [Char.ofNat (48 + n % 10)]

/-- Decimal digit characters of a natural number. -/
def natDigits (n : Nat) : List Char := natDigitsGo (n + 1) n

/-- Decimal representation of an integer (`JSON.stringify` of an integral
JS number). -/
def intChars (n : Int) : List Char :=
  if n < 0 then '-' :: natDigits (-n).toNat else natDigits n.toNat

/-! ## The internal-JWT module (`src/infra/security/internal-jwt`) -/

/-- The HMAC-SHA256 primitive `createHmac(key).update(msg).digest()` from
`node:crypto`, abstracted: key → message → digest bytes.  The real primitive
returns 32-byte digests and is collision resistant; theorems that need those
facts take them as hypotheses. -/
def HmacFn : Type := String → String → List Nat

/-- JavaScript `token.split(".")` on the character list: one segment per
run between dots, empty segments preserved. -/
def splitCharsOnDot : List Char → List (List Char)
  | [] => [[]]
  | c :: cs =>
    if c = '.' then [] :: splitCharsOnDot cs
    else
      match splitCharsOnDot cs with
      | seg :: rest => (c :: seg) :: rest
      | [] => [[c]]

/-- JavaScript `token.split(".")`. -/
def splitOnDot (s : String) : List String :=
  (splitCharsOnDot s.data).map String.mk

/-- `parseBase64UrlJson` from the source: base64url-decode, interpret the
bytes as UTF-8, `JSON.parse`; any exception becomes `none`. -/
def parseBase64UrlJson (input : String) : Option Json :=
  jsonParse (String.mk (utf8Decode (base64UrlDecode input)))

/-- `verifySignature` from the source: base64url-encode the keyed hash of the
signing input, then compare the two `Buffer.from(·)` byte strings — `false`
immediately when the raw lengths differ, `timingSafeEqual` otherwise. -/
def verifySignature (hmac : HmacFn) (signingInput signature signingKey : String) : Bool :=
  let expected := hmac signingKey signingInput
  let expectedEncoded := base64UrlEncode expected
  let expectedBuf := utf8Encode expectedEncoded
  let providedBuf := utf8Encode signature
  if expectedBuf.length ≠ providedBuf.length then false
  else expectedBuf = providedBuf

/-- `looksLikeJwt` from the source: three dot-separated parts and a first
part that decodes to a JSON value with a string `alg` field. -/
def looksLikeJwt (token : String) : Bool :=
  match splitOnDot token with
  | [p0, _, _] =>
    (match parseBase64UrlJson p0 with
     | some header =>
       (match header.getField "alg" with
        | some (.str _) => true
        | _ => false)
     | none => false)
  | _ => false

/-- Options of `verifyInternalJwt`.  The source defaults `clockSkewSeconds`
to 30 and `maxAgeSeconds` to 120 and takes the current time from
`options.nowEpochSeconds ?? Date.now()/1000`; the ambient clock is modelled
by always supplying `nowEpochSeconds`. -/
structure VerifyOptions where
  expectedAudience : String
  nowEpochSeconds : Int
  clockSkewSeconds : Int
  maxAgeSeconds : Int

/-- Result of `verifyInternalJwt`: `{valid: true, payload}` or
`{valid: false, error}`. -/
inductive VerifyResult where
  | valid (payload : Json)
  | invalid (error : String)

/-- The claim-validation tail of `verifyInternalJwt` (source lines 193-227),
applied to the parsed, signature-checked payload: internal marker, audience,
`iat` window, `exp` window, `requestId`. -/
def claimsCheck (payload : Json) (opts : VerifyOptions) : VerifyResult :=
  match payload.getField "internal" with
  | some (.bool true) =>
    (match payload.getField "aud" with
     | some (.str a) =>
       if a = opts.expectedAudience then
         (match payload.getField "iat" with
          | some (.num iat) =>
            if iat > opts.nowEpochSeconds + opts.clockSkewSeconds then .invalid "iat_future"
            else if iat < opts.nowEpochSeconds - opts.maxAgeSeconds then .invalid "iat_too_old"
            else
              (match payload.getField "exp" with
               | some (.num e) =>
                 if opts.nowEpochSeconds ≥ e + opts.clockSkewSeconds then .invalid "token_expired"
                 else
                   (match payload.getField "requestId" with
                    | some (.str r) =>
                      if r.length = 0 then .invalid "missing_request_id" else .valid payload
                    | _ => .invalid "missing_request_id")
               | _ => .invalid "missing_exp")
          | _ => .invalid "missing_iat")
       else .invalid "audience_mismatch"
     | _ => .invalid "audience_mismatch")
  | _ => .invalid "not_internal_token"

/-- `verifyInternalJwt` from the source: split, header parse, algorithm,
signature, payload parse, then `claimsCheck`. -/
def verifyInternalJwt (hmac : HmacFn) (token signingKey : String)
    (opts : VerifyOptions) : VerifyResult :=
  match splitOnDot token with
  | [encodedHeader, encodedPayload, encodedSignature] =>
    if encodedHeader = "" ∨ encodedPayload = "" ∨ encodedSignature = "" then
      .invalid "missing_parts"
    else
      (match parseBase64UrlJson encodedHeader with
       | none => .invalid "invalid_header"
       | some header =>
         if header.jsFalsy then .invalid "invalid_header"
         else
           (match header.getField "alg" with
            | some (.str a) =>
              if a ≠ "HS256" then .invalid "unsupported_algorithm"
              else
                if ¬ verifySignature hmac (encodedHeader ++ "." ++ encodedPayload)
                      encodedSignature signingKey then
                  .invalid "invalid_signature"
                else
                  (match parseBase64UrlJson encodedPayload with
                   | none => .invalid "invalid_payload"
                   | some payload =>
                     if payload.jsFalsy then .invalid "invalid_payload"
                     else claimsCheck payload opts)
            | _ => .invalid "unsupported_algorithm"))
  | _ => .invalid "invalid_format"

/-! ## The signer used by the repository's tests (`createTestJwt`) -/

/-- The claim set carried by an internal JWT (`InternalJwtPayload`). -/
structure InternalJwtPayload where
  aud : String
  iat : Int
  exp : Int
  internal : Bool
  requestId : String

/-- The JSON object `JSON.parse` recovers from the serialised claim set. -/
def InternalJwtPayload.toJson (p : InternalJwtPayload) : Json :=
  .obj [("aud", .str p.aud), ("iat", .num p.iat), ("exp", .num p.exp),
        ("internal", .bool p.internal), ("requestId", .str p.requestId)]

/-- `JSON.stringify` of a boolean. -/
def boolChars (b : Bool) : List Char :=
  if b then ['t', 'r', 'u', 'e'] else ['f', 'a', 'l', 's', 'e']

/-- `JSON.stringify` of the claim-set object (insertion order of
`createValidPayload` in the tests: aud, iat, exp, internal, requestId). -/
def InternalJwtPayload.jsonChars (p : InternalJwtPayload) : List Char :=
  lbrace :: jsonQuote "aud" ++ ':' :: jsonQuote p.aud ++
  ',' :: jsonQuote "iat" ++ ':' :: intChars p.iat ++
  ',' :: jsonQuote "exp" ++ ':' :: intChars p.exp ++
  ',' :: jsonQuote "internal" ++ ':' :: boolChars p.internal ++
  ',' :: jsonQuote "requestId" ++ ':' :: jsonQuote p.requestId ++ [rbrace]

/-- `JSON.stringify({ alg: "HS256", typ: "JWT" })`. -/
def headerJsonString : String := "\x7b\"alg\":\"HS256\",\"typ\":\"JWT\"\x7d"

/-- `createTestJwt` from the repository's unit tests: base64url header and
payload segments joined by dots, signed with the keyed hash of the signing
input. -/
def createTestJwt (hmac : HmacFn) (p : InternalJwtPayload) (signingKey : String) : String :=
  let encodedHeader := base64UrlEncode (utf8Encode headerJsonString)
  let encodedPayload := base64UrlEncode (utf8Encode (String.mk p.jsonChars))
  let signingInput := encodedHeader ++ "." ++ encodedPayload
  let signature := hmac signingKey signingInput
  encodedHeader ++ "." ++ encodedPayload ++ "." ++ base64UrlEncode signature

/-! ## The middleware (`src/middleware/internal-service-auth.middleware`) -/

/-- `tokensMatch` from the middleware: hash both operands with an HMAC keyed
by the expected secret and compare the (equal-length) digests with
`timingSafeEqual`. -/
def tokensMatch (hmac : HmacFn) (provided expected : String) : Bool :=
  let providedDigest := hmac expected provided
  let expectedDigest := hmac expected expected
  providedDigest = expectedDigest

/-- The two internal auth modes. -/
inductive AuthMode where
  | hybrid
  | jwt
deriving DecidableEq

/-- `getAuthMode` from the middleware: `"jwt"` selects jwt-only mode, any
other value of `INTERNAL_AUTH_MODE` (including unset) selects hybrid. -/
def getAuthMode (mode : Option String) : AuthMode :=
  match mode with
  | some m => if m = "jwt" then .jwt else .hybrid
  | none => .hybrid

/-- JavaScript truthiness of an optional environment/header string:
`undefined` and `""` are falsy. -/
def truthy : Option String → Bool
  | some s => s ≠ ""
  | none => false

/-- The process environment as read by the middleware on each request. -/
structure Env where
  internalAuthMode : Option String
  internalJwtSigningKey : Option String
  internalServiceToken : Option String

/-- Observable outcome of one middleware invocation: the decision, the error
response (if any), the request-context correlation id it leaves for
downstream handlers, and which verifiers ran / succeeded. -/
structure GateResult where
  allowed : Bool
  httpStatus : Option Nat
  errorCode : Option String
  errorMessage : Option String
  responseRequestId : Option String
  ctxRequestIdAfter : Option String
  jwtChecked : Bool
  jwtValid : Bool
  legacyChecked : Bool
  legacyMatched : Bool

/-- The audience this service verifies against (`SERVICE_KEY`). -/
def serviceKey : String := "telemetry-service"

/-- The rejected result of both misconfiguration branches: the same
`INTERNAL_ERROR` payload regardless of which secret is missing. -/
def misconfiguredResult (requestId : String) (ctx : Option String) : GateResult :=
  { allowed := false, httpStatus := some 500, errorCode := some "INTERNAL_ERROR",
    errorMessage := some "Internal auth misconfigured", responseRequestId := some requestId,
    ctxRequestIdAfter := ctx, jwtChecked := false, jwtValid := false,
    legacyChecked := false, legacyMatched := false }

/-- The 401 result for a missing credential header. -/
def unauthorizedResult (requestId : String) (ctx : Option String) (jwtChecked : Bool) : GateResult :=
  { allowed := false, httpStatus := some 401, errorCode := some "UNAUTHORIZED",
    errorMessage := some "Missing internal auth token", responseRequestId := some requestId,
    ctxRequestIdAfter := ctx, jwtChecked := jwtChecked, jwtValid := false,
    legacyChecked := false, legacyMatched := false }

/-- The 403 result for an invalid credential. -/
def forbiddenResult (requestId : String) (ctx : Option String)
    (jwtChecked legacyChecked : Bool) : GateResult :=
  { allowed := false, httpStatus := some 403, errorCode := some "FORBIDDEN",
    errorMessage := some "Invalid internal auth token", responseRequestId := some requestId,
    ctxRequestIdAfter := ctx, jwtChecked := jwtChecked, jwtValid := false,
    legacyChecked := legacyChecked, legacyMatched := false }

/-- The `next()` result: the request proceeds; `ctx` is the request-context
correlation id left for downstream handlers. -/
def allowedResult (ctx : Option String) (jwtChecked jwtValid legacyChecked legacyMatched : Bool) :
    GateResult :=
  { allowed := true, httpStatus := none, errorCode := none, errorMessage := none,
    responseRequestId := none, ctxRequestIdAfter := ctx, jwtChecked := jwtChecked,
    jwtValid := jwtValid, legacyChecked := legacyChecked, legacyMatched := legacyMatched }

/-- The legacy-token tail of the middleware (source lines 170-188): in hybrid
mode with a configured legacy token, compare; otherwise (and on mismatch)
respond 403. -/
def legacyTail (hmac : HmacFn) (authMode : AuthMode) (legacyToken : Option String)
    (provided requestId : String) (ctx : Option String) (jwtChecked : Bool) : GateResult :=
  if authMode = .hybrid ∧ truthy legacyToken then
    if tokensMatch hmac provided ((legacyToken).getD "") then
      allowedResult ctx jwtChecked false true true
    else forbiddenResult requestId ctx jwtChecked true
  else forbiddenResult requestId ctx jwtChecked false

/-- The id the middleware logs and responds with: the request-context id
when truthy, else a fresh `generateRequestId()`. -/
def effectiveRequestId (ctxRequestId : Option String) (freshId : String) : String :=
  match ctxRequestId with
  | some r => if r = "" then freshId else r
  | none => freshId

/-- `internalServiceAuthMiddleware`, as a function of the per-request
environment snapshot, the credential header, the request-context correlation
id, the id `generateRequestId()` would produce, and the clock. -/
def internalServiceAuthMiddleware (hmac : HmacFn) (env : Env)
    (headerToken ctxRequestId : Option String) (freshId : String) (now : Int) : GateResult :=
  let requestId := effectiveRequestId ctxRequestId freshId
  let jwtSigningKey := env.internalJwtSigningKey
  let legacyToken := env.internalServiceToken
  let authMode := getAuthMode env.internalAuthMode
  if authMode = .jwt ∧ ¬ truthy jwtSigningKey then
    misconfiguredResult requestId ctxRequestId
  else if authMode = .hybrid ∧ ¬ truthy jwtSigningKey ∧ ¬ truthy legacyToken then
    misconfiguredResult requestId ctxRequestId
  else
    match headerToken with
    | none => unauthorizedResult requestId ctxRequestId false
    | some provided =>
      if provided = "" then unauthorizedResult requestId ctxRequestId false
      else if truthy jwtSigningKey ∧ looksLikeJwt provided then
        (match verifyInternalJwt hmac provided (jwtSigningKey.getD "")
                 ⟨serviceKey, now, 30, 120⟩ with
         | .valid payload =>
           let ctxAfter := match payload.getField "requestId" with
             | some (.str r) => if r = "" then ctxRequestId else some r
             | _ => ctxRequestId
           allowedResult ctxAfter true true false false
         | .invalid _ =>
           if authMode = .jwt then forbiddenResult requestId ctxRequestId true false
           else legacyTail hmac authMode legacyToken provided requestId ctxRequestId true)
      else legacyTail hmac authMode legacyToken provided requestId ctxRequestId false


/-! ## Named segments of a `createTestJwt` token -/

/-- The header segment every `createTestJwt` token carries. -/
def headerSegment : String := base64UrlEncode (utf8Encode headerJsonString)

/-- The payload segment of the token for claim set `p`. -/
def payloadSegment (p : InternalJwtPayload) : String :=
  base64UrlEncode (utf8Encode (String.mk p.jsonChars))

/-! ## The ten checks of spec section 4.2, one definition per numbered step

`specVerify` chains the checks stated from the specification's wording in
the spec's order through `Except`, so a later check is evaluated only when
every earlier one passed and the overall result is the first failing
check's code.  The implementation's header and payload validity tests
differ from the spec's step 2 and step 5: the code accepts any JS-truthy
JSON value as a header (the spec requires a JSON object) and rejects
JS-falsy payloads such as `null` as `invalid_payload` (the spec's step 5 is
parse validity only).  `codeHeaderStep` / `codePayloadStep` are those
implementation-side tests, and `codeStepVerify` is the same ten-step chain
built on them. -/

/-- Step 1: split on `.`; exactly 3 non-empty segments, else
`invalid_format` / `missing_parts`. -/
def specSplit (token : String) : Except String (String × String × String) :=
  match splitOnDot token with
  | [h, p, s] =>
    if h = "" ∨ p = "" ∨ s = "" then .error "missing_parts" else .ok (h, p, s)
  | _ => .error "invalid_format"

/-- Step 2 as the spec states it: base64url-decode and JSON-parse segment 0
as the header; require a valid JSON object, else `invalid_header`. -/
def specHeader (h : String) : Except String Json :=
  match parseBase64UrlJson h with
  | some (.obj fields) => .ok (.obj fields)
  | _ => .error "invalid_header"

/-- Step 2 as the implementation performs it: any JS-truthy JSON value
passes (`!header` catches only a failed parse and falsy values). -/
def codeHeaderStep (h : String) : Except String Json :=
  match parseBase64UrlJson h with
  | some j => if j.jsFalsy then .error "invalid_header" else .ok j
  | none => .error "invalid_header"

/-- Step 3: the algorithm field must equal the single supported symmetric
algorithm, else `unsupported_algorithm`. -/
def specAlg (hdr : Json) : Except String Unit :=
  match hdr.getField "alg" with
  | some (.str a) => if a = "HS256" then .ok () else .error "unsupported_algorithm"
  | _ => .error "unsupported_algorithm"

/-- Step 4: compare the keyed hash of `segment0 ++ "." ++ segment1` with
segment 2, else `invalid_signature`. -/
def specSig (hmac : HmacFn) (h p s key : String) : Except String Unit :=
  if verifySignature hmac (h ++ "." ++ p) s key then .ok () else .error "invalid_signature"

/-- Step 5 as the spec states it: base64url-decode and JSON-parse segment 1
as the claims payload; invalid (fails to parse) → `invalid_payload`. -/
def specPayloadStep (p : String) : Except String Json :=
  match parseBase64UrlJson p with
  | some j => .ok j
  | none => .error "invalid_payload"

/-- Step 5 as the implementation performs it: a JS-falsy parsed value
(`null`, `0`, `""`, `false`) is also rejected as `invalid_payload`. -/
def codePayloadStep (p : String) : Except String Json :=
  match parseBase64UrlJson p with
  | some j => if j.jsFalsy then .error "invalid_payload" else .ok j
  | none => .error "invalid_payload"

/-- Step 6: `internal` must be literal boolean true, else
`not_internal_token`. -/
def specInternal (j : Json) : Except String Unit :=
  match j.getField "internal" with
  | some (.bool true) => .ok ()
  | _ => .error "not_internal_token"

/-- Step 7: audience must equal the expected audience, else
`audience_mismatch`. -/
def specAudience (j : Json) (expectedAudience : String) : Except String Unit :=
  match j.getField "aud" with
  | some (.str a) => if a = expectedAudience then .ok () else .error "audience_mismatch"
  | _ => .error "audience_mismatch"

/-- Step 8: `issuedAt` must be a number; `iat_future` above `now + skew`,
`iat_too_old` below `now - maxAge`, else `missing_iat` when absent. -/
def specIat (j : Json) (now skew maxAge : Int) : Except String Unit :=
  match j.getField "iat" with
  | some (.num iat) =>
    if iat > now + skew then .error "iat_future"
    else if iat < now - maxAge then .error "iat_too_old"
    else .ok ()
  | _ => .error "missing_iat"

/-- Step 9: `expiresAt` must be a number; `token_expired` when
`now ≥ expiresAt + skew` (inclusive boundary), else `missing_exp` when
absent. -/
def specExp (j : Json) (now skew : Int) : Except String Unit :=
  match j.getField "exp" with
  | some (.num e) => if now ≥ e + skew then .error "token_expired" else .ok ()
  | _ => .error "missing_exp"

/-- Step 10: `correlationId` must be a non-empty string, else
`missing_request_id`. -/
def specRequestId (j : Json) : Except String Unit :=
  match j.getField "requestId" with
  | some (.str r) => if r.length = 0 then .error "missing_request_id" else .ok ()
  | _ => .error "missing_request_id"

/-- The spec's ten checks as the spec states them, in the spec's exact
order, failing fast. -/
def specVerify (hmac : HmacFn) (token signingKey : String) (opts : VerifyOptions) :
    Except String Json :=
  (specSplit token).bind fun hps =>
  (specHeader hps.1).bind fun hdr =>
  (specAlg hdr).bind fun _ =>
  (specSig hmac hps.1 hps.2.1 hps.2.2 signingKey).bind fun _ =>
  (specPayloadStep hps.2.1).bind fun j =>
  (specInternal j).bind fun _ =>
  (specAudience j opts.expectedAudience).bind fun _ =>
  (specIat j opts.nowEpochSeconds opts.clockSkewSeconds opts.maxAgeSeconds).bind fun _ =>
  (specExp j opts.nowEpochSeconds opts.clockSkewSeconds).bind fun _ =>
  (specRequestId j).bind fun _ =>
  .ok j

/-- The same ten-step chain with the implementation's header and payload
validity tests in place of the spec's. -/
def codeStepVerify (hmac : HmacFn) (token signingKey : String) (opts : VerifyOptions) :
    Except String Json :=
  (specSplit token).bind fun hps =>
  (codeHeaderStep hps.1).bind fun hdr =>
  (specAlg hdr).bind fun _ =>
  (specSig hmac hps.1 hps.2.1 hps.2.2 signingKey).bind fun _ =>
  (codePayloadStep hps.2.1).bind fun j =>
  (specInternal j).bind fun _ =>
  (specAudience j opts.expectedAudience).bind fun _ =>
  (specIat j opts.nowEpochSeconds opts.clockSkewSeconds opts.maxAgeSeconds).bind fun _ =>
  (specExp j opts.nowEpochSeconds opts.clockSkewSeconds).bind fun _ =>
  (specRequestId j).bind fun _ =>
  .ok j

/-- Render a spec outcome in the implementation's result type. -/
def specResult (r : Except String Json) : VerifyResult :=
  match r with
  | .ok j => .valid j
  | .error e => .invalid e

/-! ## Derived notions used by the statements below -/

/-- The spec's section 4.4 misconfiguration condition: jwt-only mode with no
signing key, or hybrid mode with neither secret. -/
def misconfigured (env : Env) : Prop :=
  (getAuthMode env.internalAuthMode = .jwt ∧ truthy env.internalJwtSigningKey = false) ∨
  (getAuthMode env.internalAuthMode = .hybrid ∧ truthy env.internalJwtSigningKey = false ∧
    truthy env.internalServiceToken = false)

/-- The comparison the spec mandates for the signature check: normalise both
sides by hashing (the way `tokensMatch` does) and compare the fixed-length
digests, never the raw strings or their lengths. -/
def specSigCompare (hmac : HmacFn) (signingInput signature signingKey : String) : Bool :=
  tokensMatch hmac signature (base64UrlEncode (hmac signingKey signingInput))

/-- A claim field read as a JSON number (`typeof x === "number"`). -/
def numField (j : Json) (k : String) : Option Int :=
  match j.getField k with
  | some (.num n) => some n
  | _ => none

/-- Flip bit `j` of the character at index `i` of a character list. -/
def flipBitChars : Nat → Nat → List Char → List Char
  | _, _, [] => []
  | 0, j, c :: cs => Char.ofNat (c.toNat ^^^ 2 ^ j) :: cs
  | i + 1, j, c :: cs => c :: flipBitChars i j cs

/-- Flip one bit of a string: bit `j` of the character at index `i`. -/
def flipBit (s : String) (i j : Nat) : String := String.mk (flipBitChars i j s.data)

/-- Whether flipping bit `j` of the character at index `i` cannot produce a
`.` (out-of-range indices flip nothing). -/
def flipAvoidsDot (l : List Char) (i j : Nat) : Bool :=
  match l.get? i with
  | some c => ¬ (Char.ofNat (c.toNat ^^^ 2 ^ j) = '.')
  | none => true

/-! ## Concrete fixtures used by witnesses and counterexamples -/

/-- A hash-shaped stand-in with the digest geometry of SHA-256 (32 bytes,
each < 256) but a constant value, for scenarios that never rely on the hash
separating messages. -/
def constHmac : HmacFn := fun _ _ => List.replicate 32 7

/-- An injective numeric encoding of a string: base-1114113 digits, one per
character code, offset so no digit is zero. -/
def stringCode (s : String) : Nat :=
  s.data.foldr (fun c a => a * 1114113 + (c.toNat + 1)) 0

/-- A 32-entry digest that is injective in the message. -/
def injHmac : HmacFn := fun _ m => stringCode m :: List.replicate 31 0

/-- A byte-valued 32-entry digest that separates messages whose character
codes have different sums modulo 256 (in particular two strings differing
in exactly one bit of one character). -/
def sumHmac : HmacFn := fun _ m => ((m.data.map Char.toNat).sum % 256) :: List.replicate 31 0

/-- The claim set used by concrete scenarios: addressed to this service,
issued at 0, expiring at 60, marked internal, correlation id `req-1`. -/
def testPayload : InternalJwtPayload :=
  { aud := "telemetry-service", iat := 0, exp := 60, internal := true, requestId := "req-1" }

/-! ## Round-trip lemmas for the encoding pipeline -/

theorem urlSextet_b64Char : ∀ n < 64,
    b64Sextet (urlUnmapChar (urlMapChar (b64Char n))) = some n := by decide

theorem b64_aux : ∀ (bs : List Nat), (∀ b ∈ bs, b < 256) →
    sextetsToBytes ((b64EncodeBytes bs).filterMap
      (fun c => b64Sextet (urlUnmapChar (urlMapChar c)))) = bs
  | [], _ => by simp [b64EncodeBytes, sextetsToBytes]
  | [b0], h => by
    have hb : b0 < 256 := h b0 (by simp)
    have h0 := urlSextet_b64Char (b0 / 4) (by omega)
    have h1 := urlSextet_b64Char (b0 % 4 * 16) (by omega)
    simp [b64EncodeBytes, List.filterMap, h0, h1, sextetsToBytes]
    omega
  | [b0, b1], h => by
    have hb0 : b0 < 256 := h b0 (by simp)
    have hb1 : b1 < 256 := h b1 (by simp)
    have h0 := urlSextet_b64Char (b0 / 4) (by omega)
    have h1 := urlSextet_b64Char (b0 % 4 * 16 + b1 / 16) (by omega)
    have h2 := urlSextet_b64Char (b1 % 16 * 4) (by omega)
    simp [b64EncodeBytes, List.filterMap, h0, h1, h2, sextetsToBytes]
    omega
  | b0 :: b1 :: b2 :: rest, h => by
    have hb0 : b0 < 256 := h b0 (by simp)
    have hb1 : b1 < 256 := h b1 (by simp)
    have hb2 : b2 < 256 := h b2 (by simp)
    have h0 := urlSextet_b64Char (b0 / 4) (by omega)
    have h1 := urlSextet_b64Char (b0 % 4 * 16 + b1 / 16) (by omega)
    have h2 := urlSextet_b64Char (b1 % 16 * 4 + b2 / 64) (by omega)
    have h3 := urlSextet_b64Char (b2 % 64) (by omega)
    have ih := b64_aux rest (fun b hb => h b (by simp [hb]))
    simp [b64EncodeBytes, List.filterMap, h0, h1, h2, h3, sextetsToBytes, ih]
    omega

/-- Decoding inverts encoding on byte lists. -/
theorem base64UrlDecode_encode (bs : List Nat) (h : ∀ b ∈ bs, b < 256) :
    base64UrlDecode (base64UrlEncode bs) = bs := by
  simp only [base64UrlDecode, base64UrlEncode, List.filterMap_map]
  exact b64_aux bs h

/-- Unicode scalar values are below 0x110000 and outside the surrogate
range. -/
theorem char_toNat_valid (c : Char) :
    c.toNat < 55296 ∨ (57343 < c.toNat ∧ c.toNat < 1114112) := by
  have hv := c.valid
  rcases hv with h | h
  · exact Or.inl h
  · exact Or.inr ⟨h.1, h.2⟩

theorem utf8Go_encodeChar (F : Nat) (c : Char) (rest : List Nat) :
    utf8Go (F + 1) (utf8EncodeChar c ++ rest) = c :: utf8Go F rest := by
  have hv := char_toNat_valid c
  by_cases h1 : c.toNat < 128
  · have henc : utf8EncodeChar c = [c.toNat] := by simp [utf8EncodeChar, h1]
    have hstep : utf8DecodeStep c.toNat rest = (c, rest) := by
      simp [utf8DecodeStep, h1, Char.ofNat_toNat]
    rw [henc, List.cons_append, List.nil_append, utf8Go, hstep]
  · by_cases h2 : c.toNat < 2048
    · have henc : utf8EncodeChar c = [192 + c.toNat / 64, 128 + c.toNat % 64] := by
        simp [utf8EncodeChar, h1, h2]
      have e1 : ¬ (192 + c.toNat / 64 < 128) := by omega
      have e2 : 192 ≤ 192 + c.toNat / 64 ∧ 192 + c.toNat / 64 < 224 := by omega
      have e3 : isCont (128 + c.toNat % 64) = true := by simp [isCont]; omega
      have e4 : (192 + c.toNat / 64 - 192) * 64 + (128 + c.toNat % 64 - 128) = c.toNat := by
        omega
      have e5 : 128 ≤ c.toNat := by omega
      have e4a : c.toNat / 64 * 64 + c.toNat % 64 = c.toNat := by omega
      have hstep : utf8DecodeStep (192 + c.toNat / 64) ((128 + c.toNat % 64) :: rest) =
          (c, rest) := by
        simp [utf8DecodeStep, e1, e2, e3, e5, e4a, Char.ofNat_toNat]
      rw [henc]
      simp only [List.cons_append, List.nil_append]
      rw [utf8Go, hstep]
    · by_cases h3 : c.toNat < 65536
      · have henc : utf8EncodeChar c =
            [224 + c.toNat / 4096, 128 + c.toNat / 64 % 64, 128 + c.toNat % 64] := by
          simp [utf8EncodeChar, h1, h2, h3]
        have e1 : ¬ (224 + c.toNat / 4096 < 128) := by omega
        have e2 : ¬ (192 ≤ 224 + c.toNat / 4096 ∧ 224 + c.toNat / 4096 < 224) := by omega
        have e3 : 224 ≤ 224 + c.toNat / 4096 ∧ 224 + c.toNat / 4096 < 240 := by omega
        have e4 : isCont (128 + c.toNat / 64 % 64) = true := by simp [isCont]; omega
        have e5 : isCont (128 + c.toNat % 64) = true := by simp [isCont]; omega
        have e6 : (224 + c.toNat / 4096 - 224) * 4096 + (128 + c.toNat / 64 % 64 - 128) * 64 +
            (128 + c.toNat % 64 - 128) = c.toNat := by omega
        have e7 : 2048 ≤ c.toNat := by omega
        have e8 : ¬ (55296 ≤ c.toNat ∧ c.toNat < 57344) := by omega
        have e6a : c.toNat / 4096 * 4096 + c.toNat / 64 % 64 * 64 + c.toNat % 64 =
            c.toNat := by omega
        have hstep : utf8DecodeStep (224 + c.toNat / 4096)
            ((128 + c.toNat / 64 % 64) :: (128 + c.toNat % 64) :: rest) = (c, rest) := by
          simp [utf8DecodeStep, e1, e2, e3, e4, e5, e6a, e7, e8, Char.ofNat_toNat]
        rw [henc]
        simp only [List.cons_append, List.nil_append]
        rw [utf8Go, hstep]
      · have henc : utf8EncodeChar c =
            [240 + c.toNat / 262144, 128 + c.toNat / 4096 % 64,
             128 + c.toNat / 64 % 64, 128 + c.toNat % 64] := by
          simp [utf8EncodeChar, h1, h2, h3]
        have e1 : ¬ (240 + c.toNat / 262144 < 128) := by omega
        have e2 : ¬ (192 ≤ 240 + c.toNat / 262144 ∧ 240 + c.toNat / 262144 < 224) := by omega
        have e3 : ¬ (224 ≤ 240 + c.toNat / 262144 ∧ 240 + c.toNat / 262144 < 240) := by omega
        have e4 : 240 ≤ 240 + c.toNat / 262144 ∧ 240 + c.toNat / 262144 < 248 := by omega
        have e5 : isCont (128 + c.toNat / 4096 % 64) = true := by simp [isCont]; omega
        have e6 : isCont (128 + c.toNat / 64 % 64) = true := by simp [isCont]; omega
        have e7 : isCont (128 + c.toNat % 64) = true := by simp [isCont]; omega
        have e8 : (240 + c.toNat / 262144 - 240) * 262144 +
            (128 + c.toNat / 4096 % 64 - 128) * 4096 +
            (128 + c.toNat / 64 % 64 - 128) * 64 + (128 + c.toNat % 64 - 128) = c.toNat := by
          omega
        have e9 : 65536 ≤ c.toNat := by omega
        have e10 : c.toNat < 1114112 := by omega
        have e8a : c.toNat / 262144 * 262144 + c.toNat / 4096 % 64 * 4096 +
            c.toNat / 64 % 64 * 64 + c.toNat % 64 = c.toNat := by omega
        have hstep : utf8DecodeStep (240 + c.toNat / 262144)
            ((128 + c.toNat / 4096 % 64) :: (128 + c.toNat / 64 % 64) ::
             (128 + c.toNat % 64) :: rest) = (c, rest) := by
          simp [utf8DecodeStep, e1, e2, e3, e4, e5, e6, e7, e8a, e9, e10, Char.ofNat_toNat]
        rw [henc]
        simp only [List.cons_append, List.nil_append]
        rw [utf8Go, hstep]

/-- No character encodes to the empty byte sequence. -/
theorem utf8EncodeChar_ne_nil (c : Char) : utf8EncodeChar c ≠ [] := by
  simp only [utf8EncodeChar]
  split
  · simp
  · split
    · simp
    · split
      · simp
      · simp

/-- UTF-8 decoding inverts encoding, charwise, given enough fuel. -/
theorem utf8Go_encode_data : ∀ (l : List Char) (F : Nat), l.length ≤ F →
    utf8Go F ((l.map utf8EncodeChar).flatten) = l
  | [], F, _ => by
    cases F
    · rfl
    · rfl
  | c :: cs, F, h => by
    obtain ⟨F1, rfl⟩ : ∃ F1, F = F1 + 1 :=
      ⟨F - 1, by simp only [List.length_cons] at h; omega⟩
    simp only [List.map_cons, List.flatten_cons]
    rw [utf8Go_encodeChar]
    rw [utf8Go_encode_data cs F1 (by simp only [List.length_cons] at h; omega)]

/-- Encoding produces at least one byte per character. -/
theorem length_le_flatten_utf8 : ∀ (l : List Char),
    l.length ≤ ((l.map utf8EncodeChar).flatten).length
  | [] => by simp
  | c :: cs => by
    simp only [List.map_cons, List.flatten_cons, List.length_cons, List.length_append]
    have h1 := length_le_flatten_utf8 cs
    have h2 : 1 ≤ (utf8EncodeChar c).length := by
      cases hc : utf8EncodeChar c with
      | nil => exact absurd hc (utf8EncodeChar_ne_nil c)
      | cons a as => simp
    omega

/-- UTF-8 decoding inverts encoding on strings. -/
theorem utf8Decode_encode (s : String) : String.mk (utf8Decode (utf8Encode s)) = s := by
  show String.mk (utf8Go (utf8Encode s).length (utf8Encode s)) = s
  rw [show (utf8Encode s) = (s.data.map utf8EncodeChar).flatten from rfl,
    utf8Go_encode_data s.data _ (length_le_flatten_utf8 s.data)]

/-- UTF-8 bytes are bytes. -/
theorem utf8EncodeChar_lt_256 (c : Char) : ∀ b ∈ utf8EncodeChar c, b < 256 := by
  have hlt : c.toNat < 1114112 := by
    rcases char_toNat_valid c with h | h <;> omega
  intro b hb
  simp only [utf8EncodeChar] at hb
  split at hb
  · simp only [List.mem_cons, List.not_mem_nil, or_false] at hb
    omega
  · split at hb
    · simp only [List.mem_cons, List.not_mem_nil, or_false] at hb
      rcases hb with rfl | rfl <;> omega
    · split at hb
      · simp only [List.mem_cons, List.not_mem_nil, or_false] at hb
        rcases hb with rfl | rfl | rfl <;> omega
      · simp only [List.mem_cons, List.not_mem_nil, or_false] at hb
        rcases hb with rfl | rfl | rfl | rfl <;> omega

/-- All bytes of an encoded string are bytes. -/
theorem utf8Encode_lt_256 (s : String) : ∀ b ∈ utf8Encode s, b < 256 := by
  intro b hb
  simp only [utf8Encode, List.mem_flatten] at hb
  obtain ⟨l, hl, hbl⟩ := hb
  simp only [List.mem_map] at hl
  obtain ⟨c, _, rfl⟩ := hl
  exact utf8EncodeChar_lt_256 c b hbl

/-! ### Decimal digits -/

theorem digitChar_toNat : ∀ n < 10, (Char.ofNat (48 + n)).toNat = 48 + n := by decide

theorem digitChar_isDigit : ∀ n < 10, isDigitChar (Char.ofNat (48 + n)) = true := by decide

theorem natDigitsGo_irrel : ∀ (F1 F2 n : Nat), n < F1 → n < F2 →
    natDigitsGo F1 n = natDigitsGo F2 n := by
  intro F1
  induction F1 with
  | zero => intro F2 n h1 h2; omega
  | succ F1 ih =>
    intro F2 n h1 h2
    obtain ⟨F2a, rfl⟩ : ∃ k, F2 = k + 1 := ⟨F2 - 1, by omega⟩
    rw [natDigitsGo, natDigitsGo]
    by_cases h : n < 10
    · simp [h]
    · simp only [if_neg h]
      rw [ih F2a (n / 10) (by omega) (by omega)]

theorem natDigits_base (n : Nat) (h : n < 10) : natDigits n = [Char.ofNat (48 + n)] := by
  show natDigitsGo (n + 1) n = _
  rw [natDigitsGo]
  simp [h]

theorem natDigits_step (n : Nat) (h : ¬ n < 10) :
    natDigits n = natDigits (n / 10) ++ [Char.ofNat (48 + n % 10)] := by
  show natDigitsGo (n + 1) n = natDigitsGo (n / 10 + 1) (n / 10) ++ _
  rw [natDigitsGo]
  simp only [if_neg h]
  rw [natDigitsGo_irrel n (n / 10 + 1) (n / 10) (by omega) (by omega)]

theorem natDigits_ne_nil (n : Nat) : natDigits n ≠ [] := by
  by_cases h : n < 10
  · rw [natDigits_base n h]
    simp
  · rw [natDigits_step n h]
    simp

theorem natDigits_digits (n : Nat) : ∀ c ∈ natDigits n, isDigitChar c = true := by
  induction n using Nat.strong_induction_on with
  | _ n ih =>
    by_cases h : n < 10
    · rw [natDigits_base n h]
      intro c hc
      simp only [List.mem_singleton] at hc
      subst hc
      exact digitChar_isDigit n h
    · rw [natDigits_step n h]
      intro c hc
      simp only [List.mem_append, List.mem_singleton] at hc
      rcases hc with hc | hc
      · exact ih (n / 10) (by omega) c hc
      · subst hc
        exact digitChar_isDigit (n % 10) (by omega)

theorem foldl_natDigits (n : Nat) : ∀ (a : Nat),
    (natDigits n).foldl (fun x c => x * 10 + (c.toNat - 48)) a =
      a * 10 ^ (natDigits n).length + n := by
  induction n using Nat.strong_induction_on with
  | _ n ih =>
    intro a
    by_cases h : n < 10
    · rw [natDigits_base n h]
      simp only [List.foldl_cons, List.foldl_nil, List.length_singleton, pow_one,
        digitChar_toNat n h]
      omega
    · rw [natDigits_step n h]
      rw [List.foldl_append, ih (n / 10) (by omega) a]
      simp only [List.foldl_cons, List.foldl_nil, List.length_append, List.length_singleton,
        digitChar_toNat (n % 10) (by omega)]
      have hP : (0 : Nat) < 10 ^ (natDigits (n / 10)).length := Nat.pos_pow_of_pos _ (by omega)
      set P := 10 ^ (natDigits (n / 10)).length with hPdef
      have h1 : (a * P + n / 10) * 10 + (48 + n % 10 - 48) =
          a * (P * 10) + (n / 10 * 10 + n % 10) := by ring_nf; omega
      rw [h1]
      have h2 : n / 10 * 10 + n % 10 = n := by omega
      rw [h2, pow_succ]

theorem digitsVal_natDigits (n : Nat) : digitsVal (natDigits n) = n := by
  have := foldl_natDigits n 0
  simpa [digitsVal] using this

theorem natDigits_leading : ∀ (n : Nat) (d : Char) (ds : List Char),
    natDigits n = d :: ds → d = '0' → n = 0 := by
  intro n
  induction n using Nat.strong_induction_on with
  | _ n ih =>
    intro d ds hnd hd
    by_cases h : n < 10
    · rw [natDigits_base n h] at hnd
      simp only [List.cons.injEq] at hnd
      subst hd
      have := congrArg Char.toNat hnd.1.symm
      rw [digitChar_toNat n h] at this
      simp at this
      omega
    · rw [natDigits_step n h] at hnd
      obtain ⟨d1, ds1, hds1⟩ := List.exists_cons_of_ne_nil (natDigits_ne_nil (n / 10))
      rw [hds1] at hnd
      simp only [List.cons_append, List.cons.injEq] at hnd
      have := ih (n / 10) (by omega) d1 ds1 hds1 (hnd.1 ▸ hd)
      omega

/-! ### `takeWhile`/`dropWhile` splitting at an encoded token boundary -/

theorem takeWhile_append_of_all (p : Char → Bool) : ∀ (l rest : List Char),
    (∀ c ∈ l, p c = true) → (∀ r, rest.head? = some r → p r = false) →
    (l ++ rest).takeWhile p = l ∧ (l ++ rest).dropWhile p = rest
  | [], rest, _, hr => by
    cases rest with
    | nil => simp
    | cons r rs =>
      have := hr r rfl
      simp [List.takeWhile_cons, List.dropWhile_cons, this]
  | c :: cs, rest, hl, hr => by
    have hc : p c = true := hl c (by simp)
    have ⟨ih1, ih2⟩ := takeWhile_append_of_all p cs rest (fun x hx => hl x (by simp [hx])) hr
    simp [List.takeWhile_cons, List.dropWhile_cons, hc, ih1, ih2]

theorem parseNatToken_natDigits (n : Nat) (rest : List Char)
    (hr : ∀ r, rest.head? = some r → isDigitChar r = false) :
    parseNatToken (natDigits n ++ rest) = some (n, rest) := by
  obtain ⟨htake, hdrop⟩ :=
    takeWhile_append_of_all isDigitChar (natDigits n) rest (natDigits_digits n) hr
  obtain ⟨d, ds, hds⟩ := List.exists_cons_of_ne_nil (natDigits_ne_nil n)
  rw [parseNatToken, htake, hdrop, hds]
  have hno : ¬ (d = '0' ∧ ds ≠ []) := by
    rintro ⟨h0, hne⟩
    have hn0 : n = 0 := natDigits_leading n d ds hds h0
    rw [hn0] at hds
    have : natDigits 0 = ['0'] := rfl
    rw [this] at hds
    simp only [List.cons.injEq] at hds
    exact hne hds.2.symm
  simp only [if_neg hno]
  rw [← hds, digitsVal_natDigits]

theorem isDigit_ne_dash (c : Char) (h : isDigitChar c = true) : ¬ (c = '-') := by
  intro hc
  subst hc
  simp [isDigitChar] at h

theorem parseNumToken_intChars (n : Int) (rest : List Char)
    (hr : ∀ r, rest.head? = some r → isDigitChar r = false) :
    parseNumToken (intChars n ++ rest) = some (n, rest) := by
  by_cases hn : n < 0
  · have henc : intChars n = '-' :: natDigits (-n).toNat := by simp [intChars, hn]
    rw [henc, List.cons_append, parseNumToken]
    simp only [if_pos rfl]
    rw [parseNatToken_natDigits _ _ hr]
    simp only [Option.map_some']
    have : ((-n).toNat : Int) = -n := Int.toNat_of_nonneg (by omega)
    rw [this]
    simp
  · have henc : intChars n = natDigits n.toNat := by simp [intChars, hn]
    obtain ⟨d, ds, hds⟩ := List.exists_cons_of_ne_nil (natDigits_ne_nil n.toNat)
    have hd : isDigitChar d = true := natDigits_digits n.toNat d (by simp [hds])
    rw [henc, hds, List.cons_append, parseNumToken]
    rw [if_neg (isDigit_ne_dash d hd)]
    rw [← List.cons_append, ← hds, parseNatToken_natDigits _ _ hr]
    simp only [Option.map_some']
    have : (n.toNat : Int) = n := Int.toNat_of_nonneg (by omega)
    rw [this]

/-! ### JSON string literals -/

theorem hexDigitChar_hexVal : ∀ m < 16, hexVal (hexDigitChar m) = some m := by decide

theorem parseStringGo_encode : ∀ (l : List Char) (F : Nat) (rest : List Char),
    l.length + 1 ≤ F →
    parseStringGo F ((l.map escapeJsonChar).flatten ++ '"' :: rest) = some (l, rest)
  | [], F, rest, hF => by
    obtain ⟨F1, rfl⟩ : ∃ F1, F = F1 + 1 := ⟨F - 1, by omega⟩
    simp only [List.map_nil, List.flatten_nil, List.nil_append]
    rw [parseStringGo.eq_def]
    simp
  | c :: cs, F, rest, hF => by
    obtain ⟨F1, rfl⟩ : ∃ F1, F = F1 + 1 := ⟨F - 1, by omega⟩
    have ih := parseStringGo_encode cs F1 rest
      (by simp only [List.length_cons] at hF; omega)
    simp only [List.map_cons, List.flatten_cons, List.append_assoc]
    by_cases h1 : c = '"'
    · subst h1
      have hch : escapeJsonChar '"' = ['\\', '"'] := by simp [escapeJsonChar]
      rw [hch]
      simp only [List.cons_append, List.nil_append]
      rw [parseStringGo.eq_def]
      simp [ih]
    · by_cases h2 : c = '\\'
      · subst h2
        have hch : escapeJsonChar '\\' = ['\\', '\\'] := by simp [escapeJsonChar]
        rw [hch]
        simp only [List.cons_append, List.nil_append]
        rw [parseStringGo.eq_def]
        simp [ih]
      · by_cases h3 : c.toNat = 8
        · have hc : c = Char.ofNat 8 := by rw [← h3, Char.ofNat_toNat]
          subst hc
          have hch : escapeJsonChar (Char.ofNat 8) = ['\\', 'b'] := by decide
          rw [hch]
          simp only [List.cons_append, List.nil_append]
          rw [parseStringGo.eq_def]
          simp [ih]
        · by_cases h4 : c.toNat = 9
          · have hc : c = Char.ofNat 9 := by rw [← h4, Char.ofNat_toNat]
            subst hc
            have hch : escapeJsonChar (Char.ofNat 9) = ['\\', 't'] := by decide
            rw [hch]
            simp only [List.cons_append, List.nil_append]
            rw [parseStringGo.eq_def]
            simp [ih]
          · by_cases h5 : c.toNat = 10
            · have hc : c = Char.ofNat 10 := by rw [← h5, Char.ofNat_toNat]
              subst hc
              have hch : escapeJsonChar (Char.ofNat 10) = ['\\', 'n'] := by decide
              rw [hch]
              simp only [List.cons_append, List.nil_append]
              rw [parseStringGo.eq_def]
              simp [ih]
            · by_cases h6 : c.toNat = 12
              · have hc : c = Char.ofNat 12 := by rw [← h6, Char.ofNat_toNat]
                subst hc
                have hch : escapeJsonChar (Char.ofNat 12) = ['\\', 'f'] := by decide
                rw [hch]
                simp only [List.cons_append, List.nil_append]
                rw [parseStringGo.eq_def]
                simp [ih]
              · by_cases h7 : c.toNat = 13
                · have hc : c = Char.ofNat 13 := by rw [← h7, Char.ofNat_toNat]
                  subst hc
                  have hch : escapeJsonChar (Char.ofNat 13) = ['\\', 'r'] := by decide
                  rw [hch]
                  simp only [List.cons_append, List.nil_append]
                  rw [parseStringGo.eq_def]
                  simp [ih]
                · by_cases h8 : c.toNat < 32
                  · have hch : escapeJsonChar c =
                        ['\\', 'u', '0', '0', hexDigitChar (c.toNat / 16),
                         hexDigitChar (c.toNat % 16)] := by
                      simp [escapeJsonChar, h1, h2, h3, h4, h5, h6, h7, h8]
                    rw [hch]
                    simp only [List.cons_append, List.nil_append]
                    rw [parseStringGo.eq_def]
                    have hq : hexQuad '0' '0' (hexDigitChar (c.toNat / 16))
                        (hexDigitChar (c.toNat % 16)) = some c.toNat := by
                      have h0 : hexVal '0' = some 0 := by decide
                      simp only [hexQuad, h0, hexDigitChar_hexVal (c.toNat / 16) (by omega),
                        hexDigitChar_hexVal (c.toNat % 16) (by omega)]
                      have : ((0 * 16 + 0) * 16 + c.toNat / 16) * 16 + c.toNat % 16 =
                          c.toNat := by omega
                      rw [this]
                    have hesc : escCharOf c.toNat = c := by
                      simp only [escCharOf]
                      rw [if_neg (by omega), Char.ofNat_toNat]
                    simp [hq, hesc, ih]
                  · have hch : escapeJsonChar c = [c] := by
                      simp [escapeJsonChar, h1, h2, h3, h4, h5, h6, h7, h8]
                    rw [hch]
                    simp only [List.cons_append, List.nil_append]
                    rw [parseStringGo.eq_def]
                    simp [h1, h2, h8, ih]

theorem escape_flatten_length : ∀ (l : List Char),
    l.length ≤ ((l.map escapeJsonChar).flatten).length
  | [] => by simp
  | c :: cs => by
    simp only [List.map_cons, List.flatten_cons, List.length_cons, List.length_append]
    have h1 := escape_flatten_length cs
    have h2 : 1 ≤ (escapeJsonChar c).length := by
      simp only [escapeJsonChar]
      split
      · simp
      · split
        · simp
        · split
          · simp
          · split
            · simp
            · split
              · simp
              · split
                · simp
                · split
                  · simp
                  · split
                    · simp
                    · simp
    omega

theorem parseStringBody_encode (l : List Char) (rest : List Char) :
    parseStringBody ((l.map escapeJsonChar).flatten ++ '"' :: rest) = some (l, rest) := by
  unfold parseStringBody
  apply parseStringGo_encode
  have := escape_flatten_length l
  simp only [List.length_append, List.length_cons]
  omega

/-! ### Whitespace and token-start characters -/

theorem skipWs_cons (c : Char) (l : List Char)
    (h : ¬ (c = ' ' ∨ c.toNat = 9 ∨ c.toNat = 10 ∨ c.toNat = 13)) :
    skipWs (c :: l) = c :: l := by
  rw [skipWs]
  simp [h]

theorem skipWs_quote (l : List Char) : skipWs ('"' :: l) = '"' :: l :=
  skipWs_cons _ _ (by decide)

theorem skipWs_rbrace (l : List Char) : skipWs (rbrace :: l) = rbrace :: l :=
  skipWs_cons _ _ (by decide)


/-! ### Parsing the scalar tokens produced by the encoders -/

theorem parseValue_quote (g : Nat) (s : String) (rest : List Char) :
    parseValue (g + 1) (jsonQuote s ++ rest) = some (.str s, rest) := by
  have hshape : jsonQuote s ++ rest =
      '"' :: ((s.data.map escapeJsonChar).flatten ++ '"' :: rest) := by
    simp [jsonQuote, List.append_assoc]
  rw [hshape, parseValue, skipWs_cons _ _ (by decide)]
  simp [parseStringBody_encode]

theorem parseValue_true (g : Nat) (rest : List Char) :
    parseValue (g + 1) ('t' :: 'r' :: 'u' :: 'e' :: rest) = some (.bool true, rest) := by
  rw [parseValue, skipWs_cons _ _ (by decide)]
  simp

theorem parseValue_false (g : Nat) (rest : List Char) :
    parseValue (g + 1) ('f' :: 'a' :: 'l' :: 's' :: 'e' :: rest) =
      some (.bool false, rest) := by
  rw [parseValue, skipWs_cons _ _ (by decide)]
  simp

theorem intChars_head (n : Int) :
    ∃ c0 tail, intChars n = c0 :: tail ∧ (c0 = '-' ∨ isDigitChar c0 = true) := by
  by_cases hn : n < 0
  · exact ⟨'-', natDigits (-n).toNat, by simp [intChars, hn], Or.inl rfl⟩
  · obtain ⟨d, ds, hds⟩ := List.exists_cons_of_ne_nil (natDigits_ne_nil n.toNat)
    refine ⟨d, ds, ?_, Or.inr (natDigits_digits _ d (by rw [hds]; exact List.mem_cons_self d ds))⟩
    simp [intChars, hn, hds]

theorem numStart_ne (c0 : Char) (hc0 : c0 = '-' ∨ isDigitChar c0 = true) :
    ¬ c0 = 'n' ∧ ¬ c0 = 't' ∧ ¬ c0 = 'f' ∧ ¬ c0 = '"' ∧ ¬ c0 = '[' ∧ ¬ c0 = lbrace ∧
    ¬ (c0 = ' ' ∨ c0.toNat = 9 ∨ c0.toNat = 10 ∨ c0.toNat = 13) := by
  have ht : c0.toNat = 45 ∨ (48 ≤ c0.toNat ∧ c0.toNat ≤ 57) := by
    rcases hc0 with h | h
    · subst h; left; rfl
    · right
      simpa [isDigitChar] using h
  refine ⟨?_, ?_, ?_, ?_, ?_, ?_, ?_⟩
  · intro h; subst h; exact absurd ht (by decide)
  · intro h; subst h; exact absurd ht (by decide)
  · intro h; subst h; exact absurd ht (by decide)
  · intro h; subst h; exact absurd ht (by decide)
  · intro h; subst h; exact absurd ht (by decide)
  · intro h; subst h; exact absurd ht (by decide)
  · rintro (h | h | h | h)
    · subst h; exact absurd ht (by decide)
    · omega
    · omega
    · omega

theorem parseValue_intChars (g : Nat) (n : Int) (rest : List Char)
    (hr : ∀ r, rest.head? = some r → isDigitChar r = false) :
    parseValue (g + 1) (intChars n ++ rest) = some (.num n, rest) := by
  obtain ⟨c0, tail, hct, hc0⟩ := intChars_head n
  obtain ⟨hn, htl, hf, hq, hbr, hlb, hws⟩ := numStart_ne c0 hc0
  rw [hct, List.cons_append, parseValue, skipWs_cons _ _ hws]
  simp only [if_neg hn, if_neg htl, if_neg hf, if_neg hq, if_neg hbr, if_neg hlb,
    if_pos hc0]
  rw [← List.cons_append, ← hct, parseNumToken_intChars n rest hr]
  rfl

/-! ### Parsing encoded objects -/

theorem stringMk_data (s : String) : String.mk s.data = s := rfl

theorem quote_head (s : String) (X : List Char) :
    jsonQuote s ++ X = '"' :: ((s.data.map escapeJsonChar).flatten ++ ('"' :: X)) := by
  simp [jsonQuote, List.append_assoc]

theorem parseValue_boolChars (g : Nat) (b : Bool) (rest : List Char) :
    parseValue (g + 1) (boolChars b ++ rest) = some (.bool b, rest) := by
  cases b
  · simpa [boolChars] using parseValue_false g rest
  · simpa [boolChars] using parseValue_true g rest

theorem parseObjectItems_cons (g : Nat) (key : String) (v : Json) (vch tail : List Char)
    (hv : parseValue g (vch ++ (',' :: tail)) = some (v, ',' :: tail)) :
    parseObjectItems (g + 1)
      ('"' :: ((key.data.map escapeJsonChar).flatten ++
        ('"' :: (':' :: (vch ++ (',' :: tail)))))) =
    (parseObjectItems g tail).map (fun q => ((key, v) :: q.1, q.2)) := by
  rw [parseObjectItems, skipWs_cons _ _ (by decide)]
  simp [parseStringBody_encode key.data, hv, skipWs_cons, stringMk_data]

theorem parseObjectItems_last (g : Nat) (key : String) (v : Json) (vch tail : List Char)
    (hv : parseValue g (vch ++ (rbrace :: tail)) = some (v, rbrace :: tail)) :
    parseObjectItems (g + 1)
      ('"' :: ((key.data.map escapeJsonChar).flatten ++
        ('"' :: (':' :: (vch ++ (rbrace :: tail)))))) =
    some ([(key, v)], tail) := by
  rw [parseObjectItems, skipWs_quote]
  have hne : ¬ (rbrace = ',') := by decide
  simp [parseStringBody_encode key.data, hv, skipWs_cons, stringMk_data, hne,
    skipWs_rbrace]

theorem comma_head_not_digit (tail : List Char) :
    ∀ r, (',' :: tail).head? = some r → isDigitChar r = false := by
  intro r h
  simp only [List.head?_cons, Option.some.injEq] at h
  subst h
  decide

/-- Parsing the serialised claim set recovers its JSON object. -/
theorem parseValue_payloadChars (k : Nat) (p : InternalJwtPayload) (rest : List Char) :
    parseValue (k + 7) (p.jsonChars ++ rest) = some (p.toJson, rest) := by
  have hshape : p.jsonChars ++ rest =
      lbrace :: (jsonQuote "aud" ++ (':' :: (jsonQuote p.aud ++ (',' :: (jsonQuote "iat" ++ (':' :: (intChars p.iat ++ (',' :: (jsonQuote "exp" ++ (':' :: (intChars p.exp ++ (',' :: (jsonQuote "internal" ++ (':' :: (boolChars p.internal ++ (',' :: (jsonQuote "requestId" ++ (':' :: (jsonQuote p.requestId ++ (rbrace :: rest)))))))))))))))))))) := by
    simp [InternalJwtPayload.jsonChars, List.append_assoc, List.singleton_append,
      List.cons_append]
  have h7 : k + 7 = (k + 6) + 1 := rfl
  have e1 : ¬ (lbrace = 'n') := by decide
  have e2 : ¬ (lbrace = 't') := by decide
  have e3 : ¬ (lbrace = 'f') := by decide
  have e4 : ¬ (lbrace = '"') := by decide
  have e5 : ¬ (lbrace = '[') := by decide
  have e6 : ¬ ('"' = rbrace) := by decide
  rw [hshape, h7, parseValue, skipWs_cons _ _ (by decide), quote_head "aud"]
  simp only [if_neg e1, if_neg e2, if_neg e3, if_neg e4, if_neg e5, if_pos rfl,
    if_neg e6, skipWs_quote]
  rw [show k + 6 = (k + 5) + 1 from rfl,
    parseObjectItems_cons (k + 5) "aud" (Json.str p.aud) _ _
      (parseValue_quote (k + 4) p.aud _)]
  rw [quote_head "iat",
    show k + 5 = (k + 4) + 1 from rfl,
    parseObjectItems_cons (k + 4) "iat" (Json.num p.iat) _ _
      (parseValue_intChars (k + 3) p.iat _ (comma_head_not_digit _))]
  rw [quote_head "exp",
    show k + 4 = (k + 3) + 1 from rfl,
    parseObjectItems_cons (k + 3) "exp" (Json.num p.exp) _ _
      (parseValue_intChars (k + 2) p.exp _ (comma_head_not_digit _))]
  rw [quote_head "internal",
    show k + 3 = (k + 2) + 1 from rfl,
    parseObjectItems_cons (k + 2) "internal" (Json.bool p.internal) _ _
      (parseValue_boolChars (k + 1) p.internal _)]
  rw [quote_head "requestId",
    show k + 2 = (k + 1) + 1 from rfl,
    parseObjectItems_last (k + 1) "requestId" (Json.str p.requestId) _ _
      (parseValue_quote k p.requestId _)]
  simp [InternalJwtPayload.toJson]

/-! ### Top-level `JSON.parse` of the serialised claim set -/

theorem data_stringMk (l : List Char) : (String.mk l).data = l := rfl

theorem jsonParse_payload (p : InternalJwtPayload) :
    jsonParse (String.mk p.jsonChars) = some p.toJson := by
  have hlen : 6 ≤ p.jsonChars.length := by
    simp [InternalJwtPayload.jsonChars, List.length_append]
    omega
  have hfs : p.jsonChars.length + 1 = (p.jsonChars.length - 6) + 7 := by omega
  have hpv := parseValue_payloadChars (p.jsonChars.length - 6) p []
  rw [List.append_nil] at hpv
  simp only [jsonParse, data_stringMk, hfs, hpv]
  rw [skipWs]
  simp

/-! ### Round trip through base64url and UTF-8 -/

theorem parseBase64UrlJson_encode (s : String) :
    parseBase64UrlJson (base64UrlEncode (utf8Encode s)) = jsonParse s := by
  unfold parseBase64UrlJson
  rw [base64UrlDecode_encode _ (utf8Encode_lt_256 s), utf8Decode_encode]

/-! ### Characters and shape of base64url output -/

theorem b64EncodeBytes_mem : ∀ (bs : List Nat), (∀ b ∈ bs, b < 256) →
    ∀ c ∈ b64EncodeBytes bs, ∃ n, n < 64 ∧ c = b64Char n
  | [], _ => by simp [b64EncodeBytes]
  | [b0], h => by
    have hb0 : b0 < 256 := h b0 (by simp)
    intro c hc
    simp only [b64EncodeBytes, List.mem_cons, List.not_mem_nil, or_false] at hc
    rcases hc with rfl | rfl
    · exact ⟨b0 / 4, by omega, rfl⟩
    · exact ⟨b0 % 4 * 16, by omega, rfl⟩
  | [b0, b1], h => by
    have hb0 : b0 < 256 := h b0 (by simp)
    have hb1 : b1 < 256 := h b1 (by simp)
    intro c hc
    simp only [b64EncodeBytes, List.mem_cons, List.not_mem_nil, or_false] at hc
    rcases hc with rfl | rfl | rfl
    · exact ⟨b0 / 4, by omega, rfl⟩
    · exact ⟨b0 % 4 * 16 + b1 / 16, by omega, rfl⟩
    · exact ⟨b1 % 16 * 4, by omega, rfl⟩
  | b0 :: b1 :: b2 :: (rest : List Nat), h => by
    have hb0 : b0 < 256 := h b0 (by simp)
    have hb1 : b1 < 256 := h b1 (by simp)
    have hb2 : b2 < 256 := h b2 (by simp)
    intro c hc
    simp only [b64EncodeBytes, List.mem_cons] at hc
    rcases hc with rfl | rfl | rfl | rfl | hc
    · exact ⟨b0 / 4, by omega, rfl⟩
    · exact ⟨b0 % 4 * 16 + b1 / 16, by omega, rfl⟩
    · exact ⟨b1 % 16 * 4 + b2 / 64, by omega, rfl⟩
    · exact ⟨b2 % 64, by omega, rfl⟩
    · exact b64EncodeBytes_mem rest (fun b hb => h b (by simp [hb])) c hc

theorem urlMap_b64Char_ne_dot : ∀ n < 64, ¬ (urlMapChar (b64Char n) = '.') := by decide

theorem base64UrlEncode_no_dot (bs : List Nat) (hb : ∀ b ∈ bs, b < 256) :
    '.' ∉ (base64UrlEncode bs).data := by
  simp only [base64UrlEncode, data_stringMk]
  intro hmem
  simp only [List.mem_map] at hmem
  obtain ⟨c, hc, hmap⟩ := hmem
  obtain ⟨n, hn, rfl⟩ := b64EncodeBytes_mem bs hb c hc
  exact urlMap_b64Char_ne_dot n hn hmap

theorem stringMk_ne_empty (l : List Char) (h : l ≠ []) : String.mk l ≠ "" := by
  intro he
  exact h (congrArg String.data he)

theorem base64UrlEncode_ne_empty (bs : List Nat) (h : bs ≠ []) :
    base64UrlEncode bs ≠ "" := by
  apply stringMk_ne_empty
  simp only [ne_eq, List.map_eq_nil_iff]
  match bs, h with
  | b0 :: tl, _ =>
    match tl with
    | [] => simp [b64EncodeBytes]
    | [b1] => simp [b64EncodeBytes]
    | b1 :: b2 :: rest => simp [b64EncodeBytes]

/-! ### `split(".")` -/

theorem splitCharsOnDot_no_dot : ∀ (a : List Char), '.' ∉ a →
    splitCharsOnDot a = [a]
  | [], _ => rfl
  | c :: cs, h => by
    have hc : ¬ (c = '.') := by
      intro hc
      exact h (by simp [hc])
    have ih := splitCharsOnDot_no_dot cs (fun hm => h (by simp [hm]))
    rw [splitCharsOnDot]
    simp [hc, ih]

theorem splitCharsOnDot_append_dot : ∀ (a b : List Char), '.' ∉ a →
    splitCharsOnDot (a ++ '.' :: b) = a :: splitCharsOnDot b
  | [], b, _ => by
    rw [List.nil_append, splitCharsOnDot]
    simp
  | c :: cs, b, h => by
    have hc : ¬ (c = '.') := by
      intro hc
      exact h (by simp [hc])
    have ih := splitCharsOnDot_append_dot cs b (fun hm => h (by simp [hm]))
    rw [List.cons_append, splitCharsOnDot]
    simp only [hc, if_false, ih]

theorem splitCharsOnDot_ne_nil : ∀ (a : List Char), splitCharsOnDot a ≠ []
  | [] => by simp [splitCharsOnDot]
  | c :: cs => by
    rw [splitCharsOnDot]
    split
    · simp
    · split
      · simp
      · simp

theorem splitOnDot_three (h p s : String) (hh : '.' ∉ h.data) (hp : '.' ∉ p.data)
    (hs : '.' ∉ s.data) :
    splitOnDot (h ++ "." ++ p ++ "." ++ s) = [h, p, s] := by
  have hdata : (h ++ "." ++ p ++ "." ++ s).data =
      h.data ++ '.' :: (p.data ++ '.' :: s.data) := by
    simp [String.data_append, List.append_assoc]
  simp only [splitOnDot, hdata]
  rw [splitCharsOnDot_append_dot _ _ hh, splitCharsOnDot_append_dot _ _ hp,
    splitCharsOnDot_no_dot _ hs]
  simp [stringMk_data]

/-! ### The happy path of `verifyInternalJwt` on tokens from `createTestJwt` -/

/-- The signature segment of the token for claim set `p` signed with `key`. -/
def signatureSegment (hmac : HmacFn) (p : InternalJwtPayload) (key : String) : String :=
  base64UrlEncode (hmac key (headerSegment ++ "." ++ payloadSegment p))

theorem createTestJwt_segments (hmac : HmacFn) (p : InternalJwtPayload) (key : String) :
    createTestJwt hmac p key =
      headerSegment ++ "." ++ payloadSegment p ++ "." ++ signatureSegment hmac p key := rfl

theorem verifySignature_self (hmac : HmacFn) (input key : String) :
    verifySignature hmac input (base64UrlEncode (hmac key input)) key = true := by
  simp [verifySignature]

theorem headerSegment_parse :
    parseBase64UrlJson headerSegment =
      some (.obj [("alg", .str "HS256"), ("typ", .str "JWT")]) := by
  rw [show headerSegment = base64UrlEncode (utf8Encode headerJsonString) from rfl,
    parseBase64UrlJson_encode]
  rfl

theorem payloadSegment_parse (p : InternalJwtPayload) :
    parseBase64UrlJson (payloadSegment p) = some p.toJson := by
  rw [show payloadSegment p = base64UrlEncode (utf8Encode (String.mk p.jsonChars)) from rfl,
    parseBase64UrlJson_encode, jsonParse_payload]

theorem jsonChars_length (p : InternalJwtPayload) : 6 ≤ p.jsonChars.length := by
  simp [InternalJwtPayload.jsonChars, List.length_append]
  omega

theorem utf8Encode_ne_nil (s : String) (h : s.data ≠ []) : utf8Encode s ≠ [] := by
  match hd : s.data, h with
  | c :: cs, _ =>
    simp only [utf8Encode, hd, List.map_cons, List.flatten_cons]
    intro hcon
    exact utf8EncodeChar_ne_nil c (List.append_eq_nil.mp hcon).1

theorem payloadSegment_ne_empty (p : InternalJwtPayload) : payloadSegment p ≠ "" := by
  apply base64UrlEncode_ne_empty
  apply utf8Encode_ne_nil
  rw [data_stringMk]
  have := jsonChars_length p
  intro hnil
  rw [hnil] at this
  simp at this

theorem headerSegment_ne_empty : headerSegment ≠ "" := by
  apply base64UrlEncode_ne_empty
  apply utf8Encode_ne_nil
  decide

/-- `createTestJwt` splits into its three segments. -/
theorem splitOnDot_createTestJwt (hmac : HmacFn) (p : InternalJwtPayload) (key : String)
    (hbytes : ∀ b ∈ hmac key (headerSegment ++ "." ++ payloadSegment p), b < 256) :
    splitOnDot (createTestJwt hmac p key) =
      [headerSegment, payloadSegment p, signatureSegment hmac p key] := by
  rw [createTestJwt_segments]
  exact splitOnDot_three _ _ _
    (base64UrlEncode_no_dot _ (utf8Encode_lt_256 _))
    (base64UrlEncode_no_dot _ (utf8Encode_lt_256 _))
    (base64UrlEncode_no_dot _ hbytes)

/-- Every well-formed claim set signed by `createTestJwt` with the configured
key verifies, returning exactly its claims (C1 happy path; `hlen`/`hbytes`
record that HMAC-SHA256 digests are 32 bytes). -/
theorem verifyInternalJwt_happy (hmac : HmacFn) (p : InternalJwtPayload)
    (key : String) (now : Int)
    (hlen : ∀ k m, (hmac k m).length = 32)
    (hbytes : ∀ k m, ∀ b ∈ hmac k m, b < 256)
    (hint : p.internal = true)
    (hiat : p.iat = now) (hexp : p.exp = now + 60) (hreq : p.requestId ≠ "") :
    verifyInternalJwt hmac (createTestJwt hmac p key) key ⟨p.aud, now, 30, 120⟩ =
      .valid p.toJson := by
  have hsplit := splitOnDot_createTestJwt hmac p key (hbytes key _)
  have hse : signatureSegment hmac p key ≠ "" := by
    apply base64UrlEncode_ne_empty
    intro hnil
    have := hlen key (headerSegment ++ "." ++ payloadSegment p)
    rw [hnil] at this
    simp at this
  simp only [verifyInternalJwt, hsplit]
  rw [if_neg (by
    push_neg
    exact ⟨headerSegment_ne_empty, payloadSegment_ne_empty p, hse⟩)]
  rw [headerSegment_parse]
  have hfalsy : (Json.obj [("alg", .str "HS256"), ("typ", .str "JWT")]).jsFalsy = false := rfl
  have halg : (Json.obj [("alg", .str "HS256"), ("typ", .str "JWT")]).getField "alg" =
      some (.str "HS256") := rfl
  simp only [hfalsy, Bool.false_eq_true, if_false, halg]
  rw [if_neg (by simp)]
  rw [show signatureSegment hmac p key =
      base64UrlEncode (hmac key (headerSegment ++ "." ++ payloadSegment p)) from rfl]
  rw [verifySignature_self]
  simp only [Bool.not_true, Bool.false_eq_true, if_false]
  rw [payloadSegment_parse]
  have hpfalsy : p.toJson.jsFalsy = false := rfl
  simp only [hpfalsy, Bool.false_eq_true, if_false]
  have hg1 : p.toJson.getField "internal" = some (.bool p.internal) := rfl
  have hg2 : p.toJson.getField "aud" = some (.str p.aud) := rfl
  have hg3 : p.toJson.getField "iat" = some (.num p.iat) := rfl
  have hg4 : p.toJson.getField "exp" = some (.num p.exp) := rfl
  have hg5 : p.toJson.getField "requestId" = some (.str p.requestId) := rfl
  have c1 : ¬ (now > now + 30) := by omega
  have c2 : ¬ (now < now - 120) := by omega
  have c3 : ¬ (now ≥ now + 60 + 30) := by omega
  have c4 : ¬ (p.requestId.length = 0) := by
    intro h0
    apply hreq
    cases hq : p.requestId with
    | mk l =>
      rw [hq] at h0
      cases l with
      | nil => rfl
      | cons a as => simp [String.length] at h0
  simp only [claimsCheck, hg1, hint, hg2, hg3, hg4, hg5, hiat, hexp, c1, c2, c3, c4,
    if_true, if_false, eq_self_iff_true]
  simp

/-- The implementation computes exactly the ten-step ordered fail-fast
chain whose header/payload validity tests are the implementation's
truthiness tests. -/
theorem verifyInternalJwt_eq_codeSteps (hmac : HmacFn) (token signingKey : String)
    (opts : VerifyOptions) :
    verifyInternalJwt hmac token signingKey opts =
      specResult (codeStepVerify hmac token signingKey opts) := by
  unfold verifyInternalJwt codeStepVerify specResult specSplit codeHeaderStep specAlg specSig
    codePayloadStep specInternal specAudience specIat specExp specRequestId claimsCheck
  rcases hsp : splitOnDot token with _ | ⟨p0, _ | ⟨p1, _ | ⟨p2, _ | ⟨p3, rest⟩⟩⟩⟩
  · rfl
  · rfl
  · rfl
  · by_cases hemp : p0 = "" ∨ p1 = "" ∨ p2 = ""
    · simp [hemp, Except.bind]
    · cases hh : parseBase64UrlJson p0 with
      | none => simp [hemp, hh, Except.bind]
      | some hdr =>
        by_cases hjf : hdr.jsFalsy = true
        · simp [hemp, hh, hjf, Except.bind]
        · cases halg : hdr.getField "alg" with
          | none => simp [hemp, hh, hjf, halg, Except.bind]
          | some v =>
            cases v with
            | str a =>
              by_cases ha : a = "HS256"
              · by_cases hsig :
                  verifySignature hmac (p0 ++ "." ++ p1) p2 signingKey = true
                · cases hp : parseBase64UrlJson p1 with
                  | none => simp [hemp, hh, hjf, halg, ha, hsig, hp, Except.bind]
                  | some j =>
                    by_cases hpf : j.jsFalsy = true
                    · simp [hemp, hh, hjf, halg, ha, hsig, hp, hpf, Except.bind]
                    · cases hi : j.getField "internal" with
                      | none =>
                        simp [hemp, hh, hjf, halg, ha, hsig, hp, hpf, hi, Except.bind]
                      | some vi =>
                        cases vi with
                        | bool b =>
                          cases b with
                          | false =>
                            simp [hemp, hh, hjf, halg, ha, hsig, hp, hpf, hi, Except.bind]
                          | true =>
                            cases haud : j.getField "aud" with
                            | none =>
                              simp [hemp, hh, hjf, halg, ha, hsig, hp, hpf, hi, haud,
                                Except.bind]
                            | some va =>
                              cases va with
                              | str au =>
                                by_cases hau : au = opts.expectedAudience
                                · cases hiat : j.getField "iat" with
                                  | none =>
                                    simp [hemp, hh, hjf, halg, ha, hsig, hp, hpf, hi,
                                      haud, hau, hiat, Except.bind]
                                  | some vn =>
                                    cases vn with
                                    | num iat =>
                                      by_cases h1 :
                                        iat > opts.nowEpochSeconds + opts.clockSkewSeconds
                                      · simp [hemp, hh, hjf, halg, ha, hsig, hp, hpf,
                                          hi, haud, hau, hiat, h1, Except.bind]
                                      · by_cases h2 :
                                          iat < opts.nowEpochSeconds - opts.maxAgeSeconds
                                        · simp [hemp, hh, hjf, halg, ha, hsig, hp, hpf,
                                            hi, haud, hau, hiat, h1, h2, Except.bind]
                                        · cases hexp2 : j.getField "exp" with
                                          | none =>
                                            simp [hemp, hh, hjf, halg, ha, hsig, hp,
                                              hpf, hi, haud, hau, hiat, h1, h2, hexp2,
                                              Except.bind]
                                          | some ve =>
                                            cases ve with
                                            | num e =>
                                              by_cases h3 : opts.nowEpochSeconds ≥
                                                  e + opts.clockSkewSeconds
                                              · simp [hemp, hh, hjf, halg, ha, hsig,
                                                  hp, hpf, hi, haud, hau, hiat, h1, h2,
                                                  hexp2, h3, Except.bind]
                                              · cases hreq2 : j.getField "requestId" with
                                                | none =>
                                                  simp [hemp, hh, hjf, halg, ha, hsig,
                                                    hp, hpf, hi, haud, hau, hiat, h1,
                                                    h2, hexp2, h3, hreq2, Except.bind]
                                                | some vr =>
                                                  cases vr with
                                                  | str r =>
                                                    by_cases h4 : r.length = 0
                                                    · simp [hemp, hh, hjf, halg, ha,
                                                        hsig, hp, hpf, hi, haud, hau,
                                                        hiat, h1, h2, hexp2, h3, hreq2,
                                                        h4, Except.bind]
                                                    · simp [hemp, hh, hjf, halg, ha,
                                                        hsig, hp, hpf, hi, haud, hau,
                                                        hiat, h1, h2, hexp2, h3, hreq2,
                                                        h4, Except.bind]
                                                  | null =>
                                                    simp [hemp, hh, hjf, halg, ha, hsig,
                                                      hp, hpf, hi, haud, hau, hiat, h1,
                                                      h2, hexp2, h3, hreq2, Except.bind]
                                                  | bool b2 =>
                                                    simp [hemp, hh, hjf, halg, ha, hsig,
                                                      hp, hpf, hi, haud, hau, hiat, h1,
                                                      h2, hexp2, h3, hreq2, Except.bind]
                                                  | num n2 =>
                                                    simp [hemp, hh, hjf, halg, ha, hsig,
                                                      hp, hpf, hi, haud, hau, hiat, h1,
                                                      h2, hexp2, h3, hreq2, Except.bind]
                                                  | arr xs =>
                                                    simp [hemp, hh, hjf, halg, ha, hsig,
                                                      hp, hpf, hi, haud, hau, hiat, h1,
                                                      h2, hexp2, h3, hreq2, Except.bind]
                                                  | obj fs =>
                                                    simp [hemp, hh, hjf, halg, ha, hsig,
                                                      hp, hpf, hi, haud, hau, hiat, h1,
                                                      h2, hexp2, h3, hreq2, Except.bind]
                                            | null =>
                                              simp [hemp, hh, hjf, halg, ha, hsig, hp,
                                                hpf, hi, haud, hau, hiat, h1, h2, hexp2,
                                                Except.bind]
                                            | bool b2 =>
                                              simp [hemp, hh, hjf, halg, ha, hsig, hp,
                                                hpf, hi, haud, hau, hiat, h1, h2, hexp2,
                                                Except.bind]
                                            | str s2 =>
                                              simp [hemp, hh, hjf, halg, ha, hsig, hp,
                                                hpf, hi, haud, hau, hiat, h1, h2, hexp2,
                                                Except.bind]
                                            | arr xs =>
                                              simp [hemp, hh, hjf, halg, ha, hsig, hp,
                                                hpf, hi, haud, hau, hiat, h1, h2, hexp2,
                                                Except.bind]
                                            | obj fs =>
                                              simp [hemp, hh, hjf, halg, ha, hsig, hp,
                                                hpf, hi, haud, hau, hiat, h1, h2, hexp2,
                                                Except.bind]
                                    | null =>
                                      simp [hemp, hh, hjf, halg, ha, hsig, hp, hpf, hi,
                                        haud, hau, hiat, Except.bind]
                                    | bool b2 =>
                                      simp [hemp, hh, hjf, halg, ha, hsig, hp, hpf, hi,
                                        haud, hau, hiat, Except.bind]
                                    | str s2 =>
                                      simp [hemp, hh, hjf, halg, ha, hsig, hp, hpf, hi,
                                        haud, hau, hiat, Except.bind]
                                    | arr xs =>
                                      simp [hemp, hh, hjf, halg, ha, hsig, hp, hpf, hi,
                                        haud, hau, hiat, Except.bind]
                                    | obj fs =>
                                      simp [hemp, hh, hjf, halg, ha, hsig, hp, hpf, hi,
                                        haud, hau, hiat, Except.bind]
                                · simp [hemp, hh, hjf, halg, ha, hsig, hp, hpf, hi,
                                    haud, hau, Except.bind]
                              | null =>
                                simp [hemp, hh, hjf, halg, ha, hsig, hp, hpf, hi, haud,
                                  Except.bind]
                              | bool b2 =>
                                simp [hemp, hh, hjf, halg, ha, hsig, hp, hpf, hi, haud,
                                  Except.bind]
                              | num n2 =>
                                simp [hemp, hh, hjf, halg, ha, hsig, hp, hpf, hi, haud,
                                  Except.bind]
                              | arr xs =>
                                simp [hemp, hh, hjf, halg, ha, hsig, hp, hpf, hi, haud,
                                  Except.bind]
                              | obj fs =>
                                simp [hemp, hh, hjf, halg, ha, hsig, hp, hpf, hi, haud,
                                  Except.bind]
                        | null => simp [hemp, hh, hjf, halg, ha, hsig, hp, hpf, hi, Except.bind]
                        | num n2 => simp [hemp, hh, hjf, halg, ha, hsig, hp, hpf, hi, Except.bind]
                        | str s2 => simp [hemp, hh, hjf, halg, ha, hsig, hp, hpf, hi, Except.bind]
                        | arr xs => simp [hemp, hh, hjf, halg, ha, hsig, hp, hpf, hi, Except.bind]
                        | obj fs => simp [hemp, hh, hjf, halg, ha, hsig, hp, hpf, hi, Except.bind]
                · simp [hemp, hh, hjf, halg, ha, hsig, Except.bind]
              · simp [hemp, hh, hjf, halg, ha, Except.bind]
            | null => simp [hemp, hh, hjf, halg, Except.bind]
            | bool b2 => simp [hemp, hh, hjf, halg, Except.bind]
            | num n2 => simp [hemp, hh, hjf, halg, Except.bind]
            | arr xs => simp [hemp, hh, hjf, halg, Except.bind]
            | obj fs => simp [hemp, hh, hjf, halg, Except.bind]
  · rfl

/-! ## Injectivity of the byte encodings -/

theorem char_toNat_inj (c1 c2 : Char) (h : c1.toNat = c2.toNat) : c1 = c2 := by
  rw [← Char.ofNat_toNat c1, h, Char.ofNat_toNat]

theorem utf8Encode_inj (s1 s2 : String) (h : utf8Encode s1 = utf8Encode s2) : s1 = s2 := by
  have h1 := utf8Decode_encode s1
  have h2 := utf8Decode_encode s2
  rw [← h1, ← h2, h]

/-! ## What `verifySignature` actually computes -/

theorem verifySignature_iff (hmac : HmacFn) (input sig key : String) :
    verifySignature hmac input sig key = true ↔
      base64UrlEncode (hmac key input) = sig := by
  simp only [verifySignature]
  by_cases hl : (utf8Encode (base64UrlEncode (hmac key input))).length =
      (utf8Encode sig).length
  · rw [if_neg (by simp [hl])]
    constructor
    · intro h
      exact utf8Encode_inj _ _ (of_decide_eq_true h)
    · intro h
      rw [h]
      simp
  · rw [if_pos (by simp [hl])]
    constructor
    · intro h
      exact absurd h (by simp)
    · intro h
      exact absurd (by rw [h]) hl

theorem verifySignature_false_of_ne (hmac : HmacFn) (input sig key : String)
    (h : base64UrlEncode (hmac key input) ≠ sig) :
    verifySignature hmac input sig key = false := by
  cases hv : verifySignature hmac input sig key with
  | false => rfl
  | true => exact absurd ((verifySignature_iff hmac input sig key).mp hv) h

/-! ## Reaching the signature check with a bad signature -/

theorem verifyInternalJwt_sig_stage (hmac : HmacFn) (key : String) (opts : VerifyOptions)
    (h p s : String) (hdr : Json)
    (hh : '.' ∉ h.data) (hp : '.' ∉ p.data) (hs : '.' ∉ s.data)
    (hne : ¬ (h = "" ∨ p = "" ∨ s = ""))
    (hhdr : parseBase64UrlJson h = some hdr) (hf : hdr.jsFalsy = false)
    (halg : hdr.getField "alg" = some (.str "HS256"))
    (hsig : verifySignature hmac (h ++ "." ++ p) s key = false) :
    verifyInternalJwt hmac (h ++ "." ++ p ++ "." ++ s) key opts =
      .invalid "invalid_signature" := by
  unfold verifyInternalJwt
  rw [splitOnDot_three h p s hh hp hs]
  simp [hne, hhdr, hf, halg, hsig]

/-! ## Bit flips -/

theorem flipBitChars_length (j : Nat) : ∀ (i : Nat) (l : List Char),
    (flipBitChars i j l).length = l.length := by
  intro i l
  induction l generalizing i with
  | nil => cases i <;> rfl
  | cons c cs ih =>
    cases i with
    | zero => simp [flipBitChars]
    | succ i2 => simp [flipBitChars, ih i2]

theorem flipBitChars_no_dot (j : Nat) : ∀ (i : Nat) (l : List Char),
    '.' ∉ l → flipAvoidsDot l i j = true → '.' ∉ flipBitChars i j l := by
  intro i l
  induction l generalizing i with
  | nil =>
    intro _ _ hm
    cases i <;> simp [flipBitChars] at hm
  | cons c cs ih =>
    intro hnd hfa
    cases i with
    | zero =>
      simp only [flipBitChars]
      intro hm
      rcases List.mem_cons.mp hm with hm | hm
      · unfold flipAvoidsDot at hfa
        simp only [List.get?] at hfa
        exact absurd hm.symm (by simpa using hfa)
      · exact hnd (List.mem_cons_of_mem _ hm)
    | succ i2 =>
      simp only [flipBitChars]
      intro hm
      rcases List.mem_cons.mp hm with hm | hm
      · exact hnd (hm ▸ List.mem_cons_self _ _)
      · exact ih i2 (fun hx => hnd (List.mem_cons_of_mem _ hx))
          (by simpa [flipAvoidsDot] using hfa) hm

/-! ## Segment count versus dot count -/

theorem splitCharsOnDot_length : ∀ (l : List Char),
    (splitCharsOnDot l).length = l.count '.' + 1 := by
  intro l
  induction l with
  | nil => rfl
  | cons c cs ih =>
    by_cases hc : c = '.'
    · subst hc
      simp [splitCharsOnDot, List.count_cons, ih]
    · simp only [splitCharsOnDot, if_neg hc]
      rcases hsp : splitCharsOnDot cs with _ | ⟨seg, rest⟩
      · exact absurd hsp (splitCharsOnDot_ne_nil cs)
      · rw [hsp] at ih
        simp only [List.length_cons] at ih ⊢
        simp [List.count_cons, hc, ih]

/-! ## `stringCode` is injective -/

theorem codeFold_inj : ∀ (l1 l2 : List Char),
    l1.foldr (fun c a => a * 1114113 + (c.toNat + 1)) 0 =
      l2.foldr (fun c a => a * 1114113 + (c.toNat + 1)) 0 → l1 = l2 := by
  intro l1
  induction l1 with
  | nil =>
    intro l2 h
    cases l2 with
    | nil => rfl
    | cons d ds =>
      exfalso
      simp only [List.foldr] at h
      omega
  | cons c cs ih =>
    intro l2 h
    cases l2 with
    | nil =>
      exfalso
      simp only [List.foldr] at h
      omega
    | cons d ds =>
      simp only [List.foldr] at h
      have hc1 := char_toNat_valid c
      have hc2 := char_toNat_valid d
      have hkey : c.toNat = d.toNat ∧
          cs.foldr (fun c a => a * 1114113 + (c.toNat + 1)) 0 =
            ds.foldr (fun c a => a * 1114113 + (c.toNat + 1)) 0 := by
        constructor <;> omega
      rw [char_toNat_inj c d hkey.1, ih ds hkey.2]

theorem stringCode_inj {s1 s2 : String} (h : stringCode s1 = stringCode s2) : s1 = s2 := by
  unfold stringCode at h
  have hd := codeFold_inj s1.data s2.data h
  calc s1 = String.mk s1.data := rfl
    _ = String.mk s2.data := by rw [hd]
    _ = s2 := rfl

/-! ## Valid results carry a usable correlation id -/

theorem claimsCheck_valid (payload q : Json) (opts : VerifyOptions)
    (h : claimsCheck payload opts = .valid q) :
    q = payload ∧ ∃ r, payload.getField "requestId" = some (.str r) ∧ r ≠ "" := by
  unfold claimsCheck at h
  repeat' split at h
  any_goals exact VerifyResult.noConfusion h
  rename_i r hreq hlen
  injection h with h2
  refine ⟨h2.symm, r, hreq, ?_⟩
  intro he
  apply hlen
  rw [he]
  rfl

theorem verifyInternalJwt_valid (hmac : HmacFn) (tok key : String) (opts : VerifyOptions)
    (q : Json) (h : verifyInternalJwt hmac tok key opts = .valid q) :
    ∃ r, q.getField "requestId" = some (.str r) ∧ r ≠ "" := by
  unfold verifyInternalJwt at h
  repeat' split at h
  any_goals exact VerifyResult.noConfusion h
  obtain ⟨hq, r, hr, hne⟩ := claimsCheck_valid _ _ _ h
  refine ⟨r, ?_, hne⟩
  rw [hq]
  exact hr

/-! ## The claims -/

/-- C1 counterexample: `verifyInternalJwt` does not return the spec's codes.
The header segment `NQ` decodes to the valid non-object JSON value `5`:
the spec's step 2 requires a JSON object and gives `invalid_header`, but the
code accepts the truthy value and fails later as `unsupported_algorithm`.
Dually, the payload segment `bnVsbA` decodes to the valid JSON value
`null`: the spec's step 5 (parse validity) passes it and step 6 gives
`not_internal_token`, but the code rejects the falsy value as
`invalid_payload` — even on a correctly signed token. -/
theorem claim_C1_counterexample :
    verifyInternalJwt constHmac "NQ.NQ.NQ" "key" ⟨"telemetry-service", 0, 30, 120⟩ =
      .invalid "unsupported_algorithm" ∧
    specVerify constHmac "NQ.NQ.NQ" "key" ⟨"telemetry-service", 0, 30, 120⟩ =
      .error "invalid_header" ∧
    verifyInternalJwt constHmac
        (headerSegment ++ "." ++ "bnVsbA" ++ "." ++
          base64UrlEncode (constHmac "key" (headerSegment ++ "." ++ "bnVsbA"))) "key"
        ⟨"telemetry-service", 0, 30, 120⟩ = .invalid "invalid_payload" ∧
    specVerify constHmac
        (headerSegment ++ "." ++ "bnVsbA" ++ "." ++
          base64UrlEncode (constHmac "key" (headerSegment ++ "." ++ "bnVsbA"))) "key"
        ⟨"telemetry-service", 0, 30, 120⟩ = .error "not_internal_token" ∧
    verifyInternalJwt constHmac "NQ.NQ.NQ" "key" ⟨"telemetry-service", 0, 30, 120⟩ ≠
      specResult (specVerify constHmac "NQ.NQ.NQ" "key"
        ⟨"telemetry-service", 0, 30, 120⟩) := by
  refine ⟨rfl, rfl, rfl, rfl, ?_⟩
  intro hcontra
  injection hcontra with h2
  exact absurd h2 (by decide)

/-- C1 amended: `verifyInternalJwt` computes, on every input, the ten checks
in the spec's order with fail-fast first-failure semantics
(`codeStepVerify`), except that its step-2/step-5 validity tests are JS
truthiness of the parsed value: a truthy non-object header passes step 2
(where the spec's step 2 requires a JSON object) and a falsy parsed payload
such as `null` is rejected as `invalid_payload` (where the spec's step 5 is
parse validity only); and every claim set addressed to the expected
audience, marked internal, issued at `now`, expiring at `now + 60`, with a
non-empty correlation id and signed with the configured key verifies
successfully to exactly those claims. -/
theorem claim_C1 (hmac : HmacFn) (token signingKey : String) (opts : VerifyOptions)
    (p : InternalJwtPayload) (key : String) (now : Int)
    (hlen : ∀ k m, (hmac k m).length = 32)
    (hbytes : ∀ k m, ∀ b ∈ hmac k m, b < 256)
    (hint : p.internal = true) (hiat : p.iat = now) (hexp : p.exp = now + 60)
    (hreq : p.requestId ≠ "") :
    verifyInternalJwt hmac token signingKey opts =
      specResult (codeStepVerify hmac token signingKey opts) ∧
    verifyInternalJwt hmac (createTestJwt hmac p key) key ⟨p.aud, now, 30, 120⟩ =
      .valid p.toJson :=
  ⟨verifyInternalJwt_eq_codeSteps hmac token signingKey opts,
   verifyInternalJwt_happy hmac p key now hlen hbytes hint hiat hexp hreq⟩

theorem claim_C1_witness :
    verifyInternalJwt constHmac (createTestJwt constHmac testPayload "key") "key"
        ⟨testPayload.aud, 0, 30, 120⟩ = .valid testPayload.toJson :=
  (claim_C1 constHmac "t" "k" ⟨"a", 0, 30, 120⟩ testPayload "key" 0
    (fun _ _ => by simp [constHmac])
    (fun _ _ b hb => by
      simp only [constHmac, List.mem_replicate] at hb
      omega)
    rfl rfl (by decide) (by decide)).2

/-- C4: with the internal-marker and audience checks passing, `issuedAt`
must be a number (else `missing_iat`); a numeric `issuedAt` above
`now + clockSkewSeconds` yields `iat_future`, one below
`now - maxAgeSeconds` yields `iat_too_old` (with no condition on
`expiresAt`, which is checked only afterwards); inside the window,
`expiresAt` must be a number (else `missing_exp`), `now ≥ expiresAt +
clockSkewSeconds` yields `token_expired` (the boundary included), and
otherwise the check proceeds past both windows. -/
theorem claim_C4 (payload : Json) (opts : VerifyOptions)
    (hint : payload.getField "internal" = some (.bool true))
    (haud : payload.getField "aud" = some (.str opts.expectedAudience)) :
    (numField payload "iat" = none → claimsCheck payload opts = .invalid "missing_iat") ∧
    (∀ iat, numField payload "iat" = some iat →
      (iat > opts.nowEpochSeconds + opts.clockSkewSeconds →
        claimsCheck payload opts = .invalid "iat_future") ∧
      (iat ≤ opts.nowEpochSeconds + opts.clockSkewSeconds →
        iat < opts.nowEpochSeconds - opts.maxAgeSeconds →
        claimsCheck payload opts = .invalid "iat_too_old") ∧
      (opts.nowEpochSeconds - opts.maxAgeSeconds ≤ iat →
        iat ≤ opts.nowEpochSeconds + opts.clockSkewSeconds →
        (numField payload "exp" = none → claimsCheck payload opts = .invalid "missing_exp") ∧
        (∀ e, numField payload "exp" = some e →
          (opts.nowEpochSeconds ≥ e + opts.clockSkewSeconds →
            claimsCheck payload opts = .invalid "token_expired") ∧
          (opts.nowEpochSeconds < e + opts.clockSkewSeconds →
            (claimsCheck payload opts = .valid payload ∨
             claimsCheck payload opts = .invalid "missing_request_id"))))) := by
  have extract : ∀ (k : String) (n : Int), numField payload k = some n →
      payload.getField k = some (.num n) := by
    intro k n hk
    unfold numField at hk
    cases hx : payload.getField k with
    | none => rw [hx] at hk; exact Option.noConfusion hk
    | some v =>
      cases v with
      | num m => rw [hx] at hk; injection hk with h2; rw [h2]
      | null => rw [hx] at hk; exact Option.noConfusion hk
      | bool b => rw [hx] at hk; exact Option.noConfusion hk
      | str s2 => rw [hx] at hk; exact Option.noConfusion hk
      | arr a => rw [hx] at hk; exact Option.noConfusion hk
      | obj o => rw [hx] at hk; exact Option.noConfusion hk
  have extract_none : ∀ (k : String), numField payload k = none →
      ∀ n : Int, payload.getField k ≠ some (.num n) := by
    intro k hk n hx
    unfold numField at hk
    rw [hx] at hk
    exact Option.noConfusion hk
  refine ⟨?_, ?_⟩
  · intro hnone
    cases hiat : payload.getField "iat" with
    | none => simp [claimsCheck, hint, haud, hiat]
    | some v =>
      cases v with
      | num n => exact absurd hiat (extract_none "iat" hnone n)
      | null => simp [claimsCheck, hint, haud, hiat]
      | bool b => simp [claimsCheck, hint, haud, hiat]
      | str s2 => simp [claimsCheck, hint, haud, hiat]
      | arr a => simp [claimsCheck, hint, haud, hiat]
      | obj o => simp [claimsCheck, hint, haud, hiat]
  · intro iat hiat0
    have hgf := extract "iat" iat hiat0
    refine ⟨?_, ?_, ?_⟩
    · intro h1
      simp [claimsCheck, hint, haud, hgf, h1]
    · intro h1 h2
      have hn1 : ¬ (iat > opts.nowEpochSeconds + opts.clockSkewSeconds) := not_lt.mpr h1
      simp [claimsCheck, hint, haud, hgf, hn1, h2]
    · intro h1 h2
      have hn1 : ¬ (iat > opts.nowEpochSeconds + opts.clockSkewSeconds) := not_lt.mpr h2
      have hn2 : ¬ (iat < opts.nowEpochSeconds - opts.maxAgeSeconds) := not_lt.mpr h1
      refine ⟨?_, ?_⟩
      · intro hexpn
        cases hx : payload.getField "exp" with
        | none => simp [claimsCheck, hint, haud, hgf, hn1, hn2, hx]
        | some v =>
          cases v with
          | num n => exact absurd hx (extract_none "exp" hexpn n)
          | null => simp [claimsCheck, hint, haud, hgf, hn1, hn2, hx]
          | bool b => simp [claimsCheck, hint, haud, hgf, hn1, hn2, hx]
          | str s2 => simp [claimsCheck, hint, haud, hgf, hn1, hn2, hx]
          | arr a => simp [claimsCheck, hint, haud, hgf, hn1, hn2, hx]
          | obj o => simp [claimsCheck, hint, haud, hgf, hn1, hn2, hx]
      · intro e hexp0
        have hge := extract "exp" e hexp0
        refine ⟨?_, ?_⟩
        · intro h3
          simp [claimsCheck, hint, haud, hgf, hn1, hn2, hge, h3]
        · intro h3
          have hn3 : ¬ (opts.nowEpochSeconds ≥ e + opts.clockSkewSeconds) := not_le.mpr h3
          cases hr : payload.getField "requestId" with
          | none => right; simp [claimsCheck, hint, haud, hgf, hn1, hn2, hge, hn3, hr]
          | some v =>
            cases v with
            | str r =>
              by_cases hrl : r.length = 0
              · right; simp [claimsCheck, hint, haud, hgf, hn1, hn2, hge, hn3, hr, hrl]
              · left; simp [claimsCheck, hint, haud, hgf, hn1, hn2, hge, hn3, hr, hrl]
            | null => right; simp [claimsCheck, hint, haud, hgf, hn1, hn2, hge, hn3, hr]
            | bool b => right; simp [claimsCheck, hint, haud, hgf, hn1, hn2, hge, hn3, hr]
            | num n => right; simp [claimsCheck, hint, haud, hgf, hn1, hn2, hge, hn3, hr]
            | arr a => right; simp [claimsCheck, hint, haud, hgf, hn1, hn2, hge, hn3, hr]
            | obj o => right; simp [claimsCheck, hint, haud, hgf, hn1, hn2, hge, hn3, hr]

theorem claim_C4_witness :
    claimsCheck testPayload.toJson ⟨"telemetry-service", 0, 30, 120⟩ =
        .valid testPayload.toJson ∨
      claimsCheck testPayload.toJson ⟨"telemetry-service", 0, 30, 120⟩ =
        .invalid "missing_request_id" :=
  ((((claim_C4 testPayload.toJson ⟨"telemetry-service", 0, 30, 120⟩ rfl rfl).2 0
      rfl).2.2 (by decide) (by decide)).2 60 rfl).2 (by decide)

/-- C7: `tokensMatch` hashes both operands, each keyed by the expected
secret, to digests of the hash's fixed length (so no raw-length branch is
possible), and — whenever the hash separates distinct messages — returns
true exactly when the provided secret equals the expected one. -/
theorem claim_C7 (hmac : HmacFn)
    (hlen : ∀ k m, (hmac k m).length = 32)
    (hinj : ∀ k m1 m2, hmac k m1 = hmac k m2 → m1 = m2)
    (provided expected : String) :
    (tokensMatch hmac provided expected = true ↔ provided = expected) ∧
    (hmac expected provided).length = (hmac expected expected).length := by
  refine ⟨⟨?_, ?_⟩, ?_⟩
  · intro h
    simp only [tokensMatch] at h
    exact hinj expected provided expected (of_decide_eq_true h)
  · intro h
    rw [h]
    simp [tokensMatch]
  · rw [hlen, hlen]

theorem claim_C7_witness :
    (tokensMatch injHmac "alpha" "beta" = true ↔ "alpha" = "beta") ∧
    (injHmac "beta" "alpha").length = (injHmac "beta" "beta").length :=
  claim_C7 injHmac (fun _ _ => by simp [injHmac])
    (fun _ m1 m2 h => by
      simp only [injHmac] at h
      injection h with h1 _
      exact stringCode_inj h1)
    "alpha" "beta"

/-- C8: `looksLikeJwt` is true exactly when the token has two dots (three
segments) and the first segment base64url-decodes and JSON-parses to a
value with a string `alg` field; it is a total Boolean function, so
malformed input yields `false`, never an exception. -/
theorem claim_C8 (token : String) :
    looksLikeJwt token = true ↔
      (token.data.count '.' = 2 ∧
       ∃ p0 p1 p2, splitOnDot token = [p0, p1, p2] ∧
         ∃ hdr, parseBase64UrlJson p0 = some hdr ∧
           ∃ a, hdr.getField "alg" = some (.str a)) := by
  have hlen3 : (splitOnDot token).length = token.data.count '.' + 1 := by
    simp [splitOnDot, splitCharsOnDot_length]
  constructor
  · intro h
    unfold looksLikeJwt at h
    rcases hsp : splitOnDot token with _ | ⟨p0, _ | ⟨p1, _ | ⟨p2, _ | ⟨p3, rest⟩⟩⟩⟩ <;>
        rw [hsp] at h
    · exact absurd h (by simp)
    · exact absurd h (by simp)
    · exact absurd h (by simp)
    · rw [hsp] at hlen3
      refine ⟨by simpa using hlen3.symm, p0, p1, p2, rfl, ?_⟩
      cases hpar : parseBase64UrlJson p0 with
      | none => simp [hpar] at h
      | some hdr =>
        simp only [hpar] at h
        refine ⟨hdr, rfl, ?_⟩
        cases halg : hdr.getField "alg" with
        | none => simp [halg] at h
        | some v =>
          simp only [halg] at h
          cases v with
          | str a => exact ⟨a, rfl⟩
          | null => simp at h
          | bool b => simp at h
          | num n => simp at h
          | arr a2 => simp at h
          | obj o => simp at h
    · exact absurd h (by simp)
  · rintro ⟨hcount, p0, p1, p2, hsp, hdr, hpar, a, halg⟩
    unfold looksLikeJwt
    rw [hsp]
    simp [hpar, halg]

theorem claim_C8_witness :
    (createTestJwt constHmac testPayload "key").data.count '.' = 2 ∧
    ∃ p0 p1 p2, splitOnDot (createTestJwt constHmac testPayload "key") = [p0, p1, p2] ∧
      ∃ hdr, parseBase64UrlJson p0 = some hdr ∧
        ∃ a, hdr.getField "alg" = some (.str a) :=
  (claim_C8 (createTestJwt constHmac testPayload "key")).mp rfl

/-- C10: the gate selects strict (jwt-only) mode exactly when the mode flag
is the string `jwt`; every other value — unset, the spec's mode name
`strict`, or anything unrecognized — silently selects hybrid. -/
theorem claim_C10 (v : Option String) :
    (getAuthMode v = .jwt ↔ v = some "jwt") ∧
    (v ≠ some "jwt" → getAuthMode v = .hybrid) := by
  cases v with
  | none => simp [getAuthMode]
  | some m =>
    by_cases h : m = "jwt"
    · subst h
      simp [getAuthMode]
    · simp [getAuthMode, h]

theorem claim_C10_witness :
    (getAuthMode (some "strict") = .jwt ↔ (some "strict" : Option String) = some "jwt") ∧
    ((some "strict" : Option String) ≠ some "jwt" → getAuthMode (some "strict") = .hybrid) :=
  claim_C10 (some "strict")

/-- C2: a misconfigured gate (strict mode without a signing key, or hybrid
mode with neither secret) short-circuits to one constant rejected
`INTERNAL_ERROR` decision — identical for both misconfiguration causes and
for every credential, so the response cannot reveal which secret is
missing — with neither verifier run; and any allowed decision has exactly
one verifier fully validated: either the assertion verifier succeeded and
the legacy comparison never matched, or the legacy comparison matched and
the assertion verifier did not validate. -/
theorem claim_C2 :
    (∀ hmac env headerToken ctx freshId now, misconfigured env →
      internalServiceAuthMiddleware hmac env headerToken ctx freshId now =
        misconfiguredResult (effectiveRequestId ctx freshId) ctx) ∧
    (∀ hmac env headerToken ctx freshId now,
      (internalServiceAuthMiddleware hmac env headerToken ctx freshId now).allowed = true →
      ((internalServiceAuthMiddleware hmac env headerToken ctx freshId now).jwtValid = true ∧
       (internalServiceAuthMiddleware hmac env headerToken ctx freshId now).legacyMatched
         = false) ∨
      ((internalServiceAuthMiddleware hmac env headerToken ctx freshId now).legacyMatched
         = true ∧
       (internalServiceAuthMiddleware hmac env headerToken ctx freshId now).jwtValid
         = false)) := by
  constructor
  · intro hmac env h c f n hmis
    rcases hmis with ⟨hm, hk⟩ | ⟨hm, hk, hl⟩
    · simp [internalServiceAuthMiddleware, hm, hk]
    · simp [internalServiceAuthMiddleware, hm, hk, hl]
  · intro hmac env tk c f n
    unfold internalServiceAuthMiddleware legacyTail
    by_cases m1 : getAuthMode env.internalAuthMode = AuthMode.jwt ∧
        truthy env.internalJwtSigningKey = false
    · simp [m1, misconfiguredResult]
    · by_cases m2 : getAuthMode env.internalAuthMode = AuthMode.hybrid ∧
          truthy env.internalJwtSigningKey = false ∧ truthy env.internalServiceToken = false
      · simp [m1, m2, misconfiguredResult]
      · cases tk with
        | none => simp [m1, m2, unauthorizedResult]
        | some provided =>
          by_cases hp : provided = ""
          · simp [m1, m2, hp, unauthorizedResult]
          · by_cases hjb : truthy env.internalJwtSigningKey = true ∧
                looksLikeJwt provided = true
            · cases hv : verifyInternalJwt hmac provided (env.internalJwtSigningKey.getD "")
                  ⟨serviceKey, n, 30, 120⟩ with
              | valid payload => simp [m1, m2, hp, hjb, hv, allowedResult]
              | invalid err =>
                by_cases hm : getAuthMode env.internalAuthMode = AuthMode.jwt
                · simp [m1, m2, hp, hjb, hv, hm, forbiddenResult]
                · by_cases hl : getAuthMode env.internalAuthMode = AuthMode.hybrid ∧
                      truthy env.internalServiceToken = true
                  · by_cases ht : tokensMatch hmac provided
                        (env.internalServiceToken.getD "") = true
                    · simp [m1, m2, hp, hjb, hv, hm, hl, ht, allowedResult]
                    · simp [m1, m2, hp, hjb, hv, hm, hl, ht, forbiddenResult]
                  · simp [m1, m2, hp, hjb, hv, hm, hl, forbiddenResult]
            · by_cases hl : getAuthMode env.internalAuthMode = AuthMode.hybrid ∧
                  truthy env.internalServiceToken = true
              · by_cases ht : tokensMatch hmac provided
                    (env.internalServiceToken.getD "") = true
                · simp [m1, m2, hp, hjb, hl, ht, allowedResult]
                · simp [m1, m2, hp, hjb, hl, ht, forbiddenResult]
              · simp [m1, m2, hp, hjb, hl, forbiddenResult]

theorem claim_C2_witness :
    internalServiceAuthMiddleware constHmac ⟨some "jwt", none, some "sec"⟩ (some "sec")
        none "F" 0 = misconfiguredResult (effectiveRequestId none "F") none :=
  claim_C2.1 constHmac ⟨some "jwt", none, some "sec"⟩ (some "sec") none "F" 0
    (Or.inl ⟨rfl, rfl⟩)

/-- C5 counterexample: the gate re-reads the environment on every request,
so mutating the environment between two evaluations of the same credential
at the same time changes the decision: with a legacy secret configured the
request is allowed, and after the secret is removed the same request is
rejected as misconfigured. -/
theorem claim_C5_counterexample :
    (internalServiceAuthMiddleware constHmac ⟨none, none, some "sec"⟩ (some "sec")
        none "F" 0).allowed = true ∧
    (internalServiceAuthMiddleware constHmac ⟨none, none, none⟩ (some "sec")
        none "F" 0).allowed = false ∧
    internalServiceAuthMiddleware constHmac ⟨none, none, some "sec"⟩ (some "sec") none "F" 0 ≠
      internalServiceAuthMiddleware constHmac ⟨none, none, none⟩ (some "sec") none "F" 0 :=
  ⟨rfl, rfl, fun hcontra => Bool.noConfusion (congrArg GateResult.allowed hcontra)⟩

/-- C5 amended: the decision depends on the per-request environment snapshot
only through the mode, the signing key, and the legacy secret it reads: two
snapshots agreeing on those three produce identical decisions for the same
credential, context, and time. -/
theorem claim_C5_amended (hmac : HmacFn) (e1 e2 : Env) (headerToken ctx : Option String)
    (freshId : String) (now : Int)
    (hm : getAuthMode e1.internalAuthMode = getAuthMode e2.internalAuthMode)
    (hk : e1.internalJwtSigningKey = e2.internalJwtSigningKey)
    (hl : e1.internalServiceToken = e2.internalServiceToken) :
    internalServiceAuthMiddleware hmac e1 headerToken ctx freshId now =
      internalServiceAuthMiddleware hmac e2 headerToken ctx freshId now := by
  simp only [internalServiceAuthMiddleware, hm, hk, hl]

theorem claim_C5_amended_witness :
    internalServiceAuthMiddleware constHmac ⟨some "hybrid", none, some "sec"⟩ (some "sec")
        none "F" 0 =
      internalServiceAuthMiddleware constHmac ⟨some "other", none, some "sec"⟩ (some "sec")
        none "F" 0 :=
  claim_C5_amended constHmac ⟨some "hybrid", none, some "sec"⟩
    ⟨some "other", none, some "sec"⟩ (some "sec") none "F" 0 rfl rfl rfl

/-- C9 counterexample: on a legacy-secret match the gate calls `next()`
without setting any correlation id: the request context keeps whatever id
it had (here: none), and the freshly generated id is not propagated. -/
theorem claim_C9_counterexample :
    internalServiceAuthMiddleware constHmac ⟨none, none, some "sec"⟩ (some "sec")
        none "fresh-id" 0 = allowedResult none false false true true ∧
    (allowedResult none false false true true).ctxRequestIdAfter ≠ some "fresh-id" :=
  ⟨rfl, by simp [allowedResult]⟩

/-- C9 amended: when the signed assertion verifies, the gate allows and the
claim set's (necessarily non-empty) correlation id is written to the request
context for downstream handlers; when instead the legacy secret matches —
whether the credential never entered the assertion path, or it is
JWT-shaped, failed verification, and fell through in hybrid mode — the gate
allows but leaves the request-context correlation id exactly as it was: no
fresh id is propagated. -/
theorem claim_C9_amended (hmac : HmacFn) (env : Env) (tok : String) (ctx : Option String)
    (freshId : String) (now : Int) :
    (∀ payload, truthy env.internalJwtSigningKey = true → looksLikeJwt tok = true →
      tok ≠ "" →
      verifyInternalJwt hmac tok (env.internalJwtSigningKey.getD "")
          ⟨serviceKey, now, 30, 120⟩ = .valid payload →
      ∃ r, payload.getField "requestId" = some (.str r) ∧ r ≠ "" ∧
        internalServiceAuthMiddleware hmac env (some tok) ctx freshId now =
          allowedResult (some r) true true false false) ∧
    (getAuthMode env.internalAuthMode = .hybrid → truthy env.internalServiceToken = true →
      tok ≠ "" → tokensMatch hmac tok (env.internalServiceToken.getD "") = true →
      (¬ (truthy env.internalJwtSigningKey = true ∧ looksLikeJwt tok = true) →
        internalServiceAuthMiddleware hmac env (some tok) ctx freshId now =
          allowedResult ctx false false true true) ∧
      (∀ err, truthy env.internalJwtSigningKey = true → looksLikeJwt tok = true →
        verifyInternalJwt hmac tok (env.internalJwtSigningKey.getD "")
            ⟨serviceKey, now, 30, 120⟩ = .invalid err →
        internalServiceAuthMiddleware hmac env (some tok) ctx freshId now =
          allowedResult ctx true false true true)) := by
  constructor
  · intro payload hkey hjwt htok hval
    obtain ⟨r, hr, hrne⟩ := verifyInternalJwt_valid hmac tok _ _ payload hval
    refine ⟨r, hr, hrne, ?_⟩
    have hmis1 : ¬ (getAuthMode env.internalAuthMode = AuthMode.jwt ∧
        ¬ truthy env.internalJwtSigningKey = true) := by
      rintro ⟨_, hcontra⟩
      exact hcontra hkey
    have hmis2 : ¬ (getAuthMode env.internalAuthMode = AuthMode.hybrid ∧
        ¬ truthy env.internalJwtSigningKey = true ∧
        ¬ truthy env.internalServiceToken = true) := by
      rintro ⟨_, hcontra, _⟩
      exact hcontra hkey
    simp only [internalServiceAuthMiddleware, if_neg hmis1, if_neg hmis2, if_neg htok,
      if_pos (And.intro hkey hjwt), hval, hr, if_neg hrne]
  · intro hmode hleg htok hmatch
    have hmis1 : ¬ (getAuthMode env.internalAuthMode = AuthMode.jwt ∧
        ¬ truthy env.internalJwtSigningKey = true) := by
      rintro ⟨hcontra, _⟩
      rw [hmode] at hcontra
      exact AuthMode.noConfusion hcontra
    have hmis2 : ¬ (getAuthMode env.internalAuthMode = AuthMode.hybrid ∧
        ¬ truthy env.internalJwtSigningKey = true ∧
        ¬ truthy env.internalServiceToken = true) := by
      rintro ⟨_, _, hcontra⟩
      exact hcontra hleg
    constructor
    · intro hnjwt
      simp only [internalServiceAuthMiddleware, legacyTail, if_neg hmis1, if_neg hmis2,
        if_neg htok, if_neg hnjwt, if_pos (And.intro hmode hleg), if_pos hmatch]
    · intro err hkey hjwt hval
      have hnm : ¬ (getAuthMode env.internalAuthMode = AuthMode.jwt) := by
        intro hcontra
        rw [hmode] at hcontra
        exact AuthMode.noConfusion hcontra
      simp only [internalServiceAuthMiddleware, legacyTail, if_neg hmis1, if_neg hmis2,
        if_neg htok, if_pos (And.intro hkey hjwt), hval, if_neg hnm,
        if_pos (And.intro hmode hleg), if_pos hmatch]

theorem claim_C9_amended_witness :
    (∃ r, testPayload.toJson.getField "requestId" = some (.str r) ∧ r ≠ "" ∧
      internalServiceAuthMiddleware constHmac ⟨none, some "key", none⟩
          (some (createTestJwt constHmac testPayload "key")) none "F" 0 =
        allowedResult (some r) true true false false) ∧
    internalServiceAuthMiddleware constHmac
        ⟨none, some "key",
          some (createTestJwt constHmac ⟨"telemetry-service", 0, -30, true, "req-1"⟩ "key")⟩
        (some (createTestJwt constHmac ⟨"telemetry-service", 0, -30, true, "req-1"⟩ "key"))
        none "F" 0 =
      allowedResult none true false true true :=
  ⟨(claim_C9_amended constHmac ⟨none, some "key", none⟩
      (createTestJwt constHmac testPayload "key") none "F" 0).1
    testPayload.toJson rfl rfl (by decide) rfl,
   ((claim_C9_amended constHmac
      ⟨none, some "key",
        some (createTestJwt constHmac ⟨"telemetry-service", 0, -30, true, "req-1"⟩ "key")⟩
      (createTestJwt constHmac ⟨"telemetry-service", 0, -30, true, "req-1"⟩ "key")
      none "F" 0).2 rfl rfl (by decide) rfl).2 "token_expired" rfl rfl rfl⟩

/-- C3 counterexample: `verifySignature` is not the spec's hash-normalised
comparison: it base64url-encodes the expected digest and compares it with
the raw third segment, branching on the raw length first, while
`specSigCompare` (the spec's uniform approach, built on `tokensMatch`)
hash-normalises both sides; a hash for which all digests coincide separates
the two. -/
theorem claim_C3_counterexample :
    verifySignature constHmac "input" "abc" "key" ≠
      specSigCompare constHmac "input" "abc" "key" := by
  decide

/-- C3 amended: `verifySignature` accepts exactly when the base64url
encoding of the keyed hash of `segment0 ++ "." ++ segment1` equals the raw
third segment (an encoded-digest string comparison, preceded by a raw
length branch), and any other third segment makes `verifyInternalJwt`
fail with `invalid_signature`. -/
theorem claim_C3_amended (hmac : HmacFn) (h p s key : String) (hdr : Json)
    (opts : VerifyOptions)
    (hh : '.' ∉ h.data) (hp2 : '.' ∉ p.data) (hs : '.' ∉ s.data)
    (hne : ¬ (h = "" ∨ p = "" ∨ s = ""))
    (hhdr : parseBase64UrlJson h = some hdr) (hf : hdr.jsFalsy = false)
    (halg : hdr.getField "alg" = some (.str "HS256"))
    (hmis : base64UrlEncode (hmac key (h ++ "." ++ p)) ≠ s) :
    (∀ input sig k, verifySignature hmac input sig k = true ↔
      base64UrlEncode (hmac k input) = sig) ∧
    verifyInternalJwt hmac (h ++ "." ++ p ++ "." ++ s) key opts =
      .invalid "invalid_signature" :=
  ⟨fun input sig k => verifySignature_iff hmac input sig k,
   verifyInternalJwt_sig_stage hmac key opts h p s hdr hh hp2 hs hne hhdr hf halg
     (verifySignature_false_of_ne hmac (h ++ "." ++ p) s key hmis)⟩

theorem claim_C3_amended_witness :
    (∀ input sig k, verifySignature constHmac input sig k = true ↔
      base64UrlEncode (constHmac k input) = sig) ∧
    verifyInternalJwt constHmac
        (headerSegment ++ "." ++ payloadSegment testPayload ++ "." ++ "AAA") "key"
        ⟨"telemetry-service", 0, 30, 120⟩ = .invalid "invalid_signature" :=
  claim_C3_amended constHmac headerSegment (payloadSegment testPayload) "AAA" "key"
    (.obj [("alg", .str "HS256"), ("typ", .str "JWT")]) ⟨"telemetry-service", 0, 30, 120⟩
    (by decide) (by decide) (by decide) (by decide) headerSegment_parse rfl rfl (by decide)

/-- C6 counterexample: flipping bit 6 of character 21 of the payload
segment of a correctly signed token turns an `n` into a `.`, giving the
token four segments, so verification fails with `invalid_format` — a parse
error, not `invalid_signature`. -/
theorem claim_C6_counterexample :
    verifyInternalJwt constHmac (createTestJwt constHmac testPayload "key") "key"
        ⟨"telemetry-service", 0, 30, 120⟩ = .valid testPayload.toJson ∧
    createTestJwt constHmac testPayload "key" =
      headerSegment ++ "." ++ payloadSegment testPayload ++ "." ++
        signatureSegment constHmac testPayload "key" ∧
    verifyInternalJwt constHmac
        (headerSegment ++ "." ++ flipBit (payloadSegment testPayload) 21 6 ++ "." ++
          signatureSegment constHmac testPayload "key") "key"
        ⟨"telemetry-service", 0, 30, 120⟩ = .invalid "invalid_format" ∧
    VerifyResult.invalid "invalid_format" ≠ VerifyResult.invalid "invalid_signature" := by
  refine ⟨rfl, rfl, rfl, ?_⟩
  intro hcontra
  injection hcontra with h2
  exact absurd h2 (by decide)

/-- C6 amended: flipping one payload-segment bit whose result is not a dot,
in a correctly signed token, yields `invalid_signature` — before any
payload content is parsed — provided the hash separates the tampered
signing input from the original (no collision). -/
theorem claim_C6_amended (hmac : HmacFn) (p : InternalJwtPayload) (key aud : String)
    (now : Int) (i j : Nat)
    (hlen : ∀ k m, (hmac k m).length = 32)
    (hbytes : ∀ k m, ∀ b ∈ hmac k m, b < 256)
    (hflip : flipAvoidsDot (payloadSegment p).data i j = true)
    (hcoll : base64UrlEncode
        (hmac key (headerSegment ++ "." ++ flipBit (payloadSegment p) i j)) ≠
      signatureSegment hmac p key) :
    verifyInternalJwt hmac
        (headerSegment ++ "." ++ flipBit (payloadSegment p) i j ++ "." ++
          signatureSegment hmac p key) key ⟨aud, now, 30, 120⟩ =
      .invalid "invalid_signature" := by
  have hpd : '.' ∉ (payloadSegment p).data :=
    base64UrlEncode_no_dot _ (utf8Encode_lt_256 _)
  have hfd : '.' ∉ (flipBit (payloadSegment p) i j).data := by
    show '.' ∉ (String.mk (flipBitChars i j (payloadSegment p).data)).data
    rw [data_stringMk]
    exact flipBitChars_no_dot j i _ hpd hflip
  have hsd : '.' ∉ (signatureSegment hmac p key).data :=
    base64UrlEncode_no_dot _ (fun b hb => hbytes _ _ b hb)
  have hhd : '.' ∉ headerSegment.data := by decide
  have hfe : flipBit (payloadSegment p) i j ≠ "" := by
    show String.mk (flipBitChars i j (payloadSegment p).data) ≠ ""
    apply stringMk_ne_empty
    intro hnil
    have hl := flipBitChars_length j i (payloadSegment p).data
    rw [hnil] at hl
    have hd0 : (payloadSegment p).data = [] := List.length_eq_zero.mp hl.symm
    apply payloadSegment_ne_empty p
    calc payloadSegment p = String.mk (payloadSegment p).data := rfl
      _ = String.mk [] := by rw [hd0]
      _ = "" := rfl
  have hse : signatureSegment hmac p key ≠ "" := by
    apply base64UrlEncode_ne_empty
    intro hnil
    have h32 := hlen key (headerSegment ++ "." ++ payloadSegment p)
    rw [hnil] at h32
    simp at h32
  exact verifyInternalJwt_sig_stage hmac key _ _ _ _
    (.obj [("alg", .str "HS256"), ("typ", .str "JWT")]) hhd hfd hsd
    (by rintro (h1 | h2 | h3)
        exacts [headerSegment_ne_empty h1, hfe h2, hse h3])
    headerSegment_parse rfl rfl
    (verifySignature_false_of_ne _ _ _ _ hcoll)

set_option maxRecDepth 20000 in
theorem claim_C6_amended_witness :
    verifyInternalJwt sumHmac
        (headerSegment ++ "." ++ flipBit (payloadSegment testPayload) 0 0 ++ "." ++
          signatureSegment sumHmac testPayload "key") "key"
        ⟨"telemetry-service", 0, 30, 120⟩ = .invalid "invalid_signature" :=
  claim_C6_amended sumHmac testPayload "key" "telemetry-service" 0 0 0
    (fun _ _ => by simp [sumHmac])
    (fun _ _ b hb => by
      simp only [sumHmac, List.mem_cons, List.mem_replicate] at hb
      rcases hb with hb | ⟨_, hb⟩ <;> subst hb <;> omega)
    (by decide) (by decide)

end InternalAuth
